import Mathlib

/-!
Verification of the radsecproxy proxy engine (src/radsecproxy.c) against its
natural-language specification.

The development is a shallow embedding: byte buffers are `List Nat` (each
entry < 256), machine arithmetic is `Nat` with explicit reductions, fallible
C code returns `Option`, and the per-server request table is an explicit
state value.  Each definition is translated from the C source; the header
`radsecproxy.h` is not part of the sources, so the handful of macros and
constants it provides (`RADLEN`, `MAX_REQUESTS`, retry constants, RADIUS
code numbers) are modelled from the specification, as marked on each such
definition.
-/

set_option maxRecDepth 10000

namespace Radsecproxy

/-! ## Byte-list helpers -/

/-- XOR of two byte lists, pointwise (the C loops `out[i] = hash[i] ^ in[i]`). -/
def xorBytes (a b : List Nat) : List Nat :=
  List.zipWith Nat.xor a b

/-- Split a list into consecutive chunks of `n` bytes (fuel-based recursion;
the fuel is the list length, so every element is consumed when `n > 0`). -/
def chunksOfAux (n : Nat) : Nat → List Nat → List (List Nat)
  | 0, _ => []
  | _, [] => []
  | Nat.succ fuel, l => l.take n :: chunksOfAux n fuel (l.drop n)

/-- Split a list into consecutive chunks of `n` bytes. -/
def chunksOf (n : Nat) (l : List Nat) : List (List Nat) :=
  chunksOfAux n l.length l

/-- Overwrite the bytes of `l` starting at offset `i` with `v`
(the semantics of `memcpy(l + i, v, v.length)` on a buffer). -/
def writeBytes (l : List Nat) (i : Nat) (v : List Nat) : List Nat :=
  l.take i ++ v ++ l.drop (i + v.length)

/-- Read `n` bytes of `l` starting at offset `i` (`memcpy(dst, l + i, n)`). -/
def readBytes (l : List Nat) (i n : Nat) : List Nat :=
  (l.drop i).take n

/-! ## MD5 (RFC 1321)

The C code computes MD5 via OpenSSL (`EVP_md5()`); the library is external
to the repository, so it is embedded here by its standard definition.  All
words are `Nat` reduced mod `2^32`. -/

/-- 32-bit truncation. -/
def m32 (x : Nat) : Nat := x % 4294967296

/-- 32-bit left rotation. -/
def rotl32 (x c : Nat) : Nat :=
  m32 (x * 2 ^ c + x / 2 ^ (32 - c))

/-- The 64 MD5 sine-derived constants. -/
def md5K : List Nat :=
  [0xd76aa478, 0xe8c7b756, 0x242070db, 0xc1bdceee,
   0xf57c0faf, 0x4787c62a, 0xa8304613, 0xfd469501,
   0x698098d8, 0x8b44f7af, 0xffff5bb1, 0x895cd7be,
   0x6b901122, 0xfd987193, 0xa679438e, 0x49b40821,
   0xf61e2562, 0xc040b340, 0x265e5a51, 0xe9b6c7aa,
   0xd62f105d, 0x02441453, 0xd8a1e681, 0xe7d3fbc8,
   0x21e1cde6, 0xc33707d6, 0xf4d50d87, 0x455a14ed,
   0xa9e3e905, 0xfcefa3f8, 0x676f02d9, 0x8d2a4c8a,
   0xfffa3942, 0x8771f681, 0x6d9d6122, 0xfde5380c,
   0xa4beea44, 0x4bdecfa9, 0xf6bb4b60, 0xbebfbc70,
   0x289b7ec6, 0xeaa127fa, 0xd4ef3085, 0x04881d05,
   0xd9d4d039, 0xe6db99e5, 0x1fa27cf8, 0xc4ac5665,
   0xf4292244, 0x432aff97, 0xab9423a7, 0xfc93a039,
   0x655b59c3, 0x8f0ccc92, 0xffeff47d, 0x85845dd1,
   0x6fa87e4f, 0xfe2ce6e0, 0xa3014314, 0x4e0811a1,
   0xf7537e82, 0xbd3af235, 0x2ad7d2bb, 0xeb86d391]

/-- The 64 per-round left-rotation amounts. -/
def md5S : List Nat :=
  [7, 12, 17, 22, 7, 12, 17, 22, 7, 12, 17, 22, 7, 12, 17, 22,
   5, 9, 14, 20, 5, 9, 14, 20, 5, 9, 14, 20, 5, 9, 14, 20,
   4, 11, 16, 23, 4, 11, 16, 23, 4, 11, 16, 23, 4, 11, 16, 23,
   6, 10, 15, 21, 6, 10, 15, 21, 6, 10, 15, 21, 6, 10, 15, 21]

/-- Decode a 64-byte block into 16 little-endian 32-bit words. -/
def md5Words (block : List Nat) : List Nat :=
  (chunksOf 4 block).map fun w =>
    w.getD 0 0 + 256 * w.getD 1 0 + 65536 * w.getD 2 0 + 16777216 * w.getD 3 0

/-- One MD5 round step on state `(a, b, c, d)`. -/
def md5Step (w : List Nat) (st : Nat × Nat × Nat × Nat) (i : Nat) :
    Nat × Nat × Nat × Nat :=
  let (a, b, c, d) := st
  let (f, g) :=
    if i < 16 then (Nat.lor (Nat.land b c) (Nat.land (4294967295 - b) d), i)
    else if i < 32 then (Nat.lor (Nat.land d b) (Nat.land (4294967295 - d) c), (5 * i + 1) % 16)
    else if i < 48 then (Nat.xor (Nat.xor b c) d, (3 * i + 5) % 16)
    else (Nat.xor c (Nat.lor b (4294967295 - d)), (7 * i) % 16)
  let f := m32 (f + a + md5K.getD i 0 + w.getD g 0)
  (d, m32 (b + rotl32 f (md5S.getD i 0)), b, c)

/-- Process one 64-byte block, updating the running digest state. -/
def md5Block (st : Nat × Nat × Nat × Nat) (block : List Nat) :
    Nat × Nat × Nat × Nat :=
  let w := md5Words block
  let (a, b, c, d) := (List.range 64).foldl (md5Step w) st
  let (a0, b0, c0, d0) := st
  (m32 (a0 + a), m32 (b0 + b), m32 (c0 + c), m32 (d0 + d))

/-- Encode a 32-bit word as 4 little-endian bytes. -/
def le4 (x : Nat) : List Nat :=
  [x % 256, x / 256 % 256, x / 65536 % 256, x / 16777216 % 256]

/-- Encode a 64-bit word as 8 little-endian bytes. -/
def le8 (x : Nat) : List Nat :=
  le4 (x % 4294967296) ++ le4 (x / 4294967296)

/-- MD5 padding: append `0x80`, zero bytes to 56 mod 64, then the bit length. -/
def md5Pad (msg : List Nat) : List Nat :=
  let padlen := (55 + 64 - msg.length % 64) % 64 + 1
  msg ++ (128 :: List.replicate (padlen - 1) 0) ++ le8 (8 * msg.length)

/-- MD5 of a byte list, as a 16-byte list. -/
def md5 (msg : List Nat) : List Nat :=
  let (a, b, c, d) :=
    (chunksOf 64 (md5Pad msg)).foldl md5Block
      (0x67452301, 0xefcdab89, 0x98badcfe, 0x10325476)
  le4 a ++ le4 b ++ le4 c ++ le4 d

/-! ## User-Password stream cipher (`pwdencrypt` / `pwddecrypt`)

`src/radsecproxy.c:1160-1230`.  Both functions walk the password in 16-byte
blocks; block `j`'s keystream is `MD5(shared ++ input_j)` with
`input_0 = auth`.  The hash is a parameter `h` so that properties that do not
depend on MD5 itself are stated for every hash; `Radsecproxy.md5` instantiates
it for concrete evaluation.

In `pwdencrypt` the C code sets `input = out + offset - 16` *before*
`offset += 16`, so the input for block `j+1` is the ciphertext block `j-1`
— and for `j = 0` the 16 bytes *before* the `out` array, i.e. uninitialized
stack memory, modelled by the extra parameter `garbage`.  In `pwddecrypt`
the C code sets `input = in + offset` (before the increment), the ciphertext
block just consumed. -/

/-- `pwdencrypt` block loop: `inp` is the current MD5 chaining input,
`prev` the previous ciphertext block (`none` on the first iteration, where
the C code's `out + offset - 16` points before the array, yielding
`garbage`). -/
def pwdencryptBlocks (h : List Nat → List Nat) (garbage shared : List Nat) :
    List Nat → Option (List Nat) → List (List Nat) → List (List Nat)
  | _, _, [] => []
  | inp, prev, p :: ps =>
    let c := xorBytes (h (shared ++ inp)) p
    c :: pwdencryptBlocks h garbage shared
      (match prev with
       | none => garbage
       | some pc => pc) (some c) ps

/-- `pwdencrypt` (radsecproxy.c:1160): encrypt `p` (length a positive
multiple of 16) under `shared` and the 16-byte `auth`; `garbage` models the
uninitialized bytes the C code reads at `out - 16`. -/
def pwdencrypt (h : List Nat → List Nat) (garbage shared auth p : List Nat) :
    List Nat :=
  (pwdencryptBlocks h garbage shared auth none (chunksOf 16 p)).flatten

/-- `pwddecrypt` block loop: the chaining input for the next block is the
ciphertext block just consumed. -/
def pwddecryptBlocks (h : List Nat → List Nat) (shared : List Nat) :
    List Nat → List (List Nat) → List (List Nat)
  | _, [] => []
  | inp, c :: cs =>
    xorBytes (h (shared ++ inp)) c :: pwddecryptBlocks h shared c cs

/-- `pwddecrypt` (radsecproxy.c:1196): decrypt `c` under `shared` and the
16-byte `auth`. -/
def pwddecrypt (h : List Nat → List Nat) (shared auth c : List Nat) : List Nat :=
  (pwddecryptBlocks h shared auth (chunksOf 16 c)).flatten

/-! ## Header constants

Modelled from the spec: the macros and constants below live in
`radsecproxy.h`, which is not among the sources; the spec fixes each value
(§4.1 wire format, §3 request-table capacity, §4.5 retry constants,
glossary RADIUS codes and attribute numbers). -/

/-- Modelled from the spec: `RADLEN(buf)` reads the authoritative big-endian
16-bit length field at offset 2 of the RADIUS header (§4.1). -/
def RADLEN (buf : List Nat) : Nat :=
  256 * buf.getD 2 0 + buf.getD 3 0

/-- Modelled from the spec: the request table has `N = 256` slots, matching
the 8-bit RADIUS ID space (§3, §4.5). -/
def MAX_REQUESTS : Nat := 256

/-- Modelled from the spec: `REQUEST_RETRIES = 3` (§4.5). -/
def REQUEST_RETRIES : Nat := 3

/-- Modelled from the spec: `REQUEST_EXPIRY = 20` seconds (§4.5). -/
def REQUEST_EXPIRY : Nat := 20

/-- Modelled from the spec: Access-Request is RADIUS code 1 (glossary). -/
def RAD_Access_Request : Nat := 1

/-- Modelled from the spec: Accounting-Request is RADIUS code 4 (glossary). -/
def RAD_Accounting_Request : Nat := 4

/-- Modelled from the spec: Accounting-Response is RADIUS code 5 (glossary). -/
def RAD_Accounting_Response : Nat := 5

/-- Modelled from the spec: Status-Server is RADIUS code 12 (glossary). -/
def RAD_Status_Server : Nat := 12

/-! ## Message-Authenticator check (`checkmessageauth`)

`src/radsecproxy.c:995-1029`.  The packet is a byte list `rad`; `off` is the
offset of the 16-byte Message-Authenticator attribute value inside it
(the C code receives the pointer `authattr`).  HMAC-MD5 is an external
library call, so it is a parameter `hmac : secret → message → mac`; none of
the claims about this function depend on the hash's value. -/

/-- `checkmessageauth`: save the 16 attribute-value bytes, zero them,
HMAC the first `RADLEN` bytes of the packet, restore the saved bytes
(the C code restores before checking `md_len`), then compare.
Returns the comparison verdict together with the final buffer contents. -/
def checkmessageauth (hmac : List Nat → List Nat → List Nat)
    (secret rad : List Nat) (off : Nat) : Bool × List Nat :=
  let auth := readBytes rad off 16
  let rad0 := writeBytes rad off (List.replicate 16 0)
  let hash := hmac secret (rad0.take (RADLEN rad0))
  let rad1 := writeBytes rad0 off auth
  (hash.length == 16 && auth == hash.take 16, rad1)

/-! ## Supporting list lemmas -/

/-- Overwriting a range and then writing back the bytes originally read from
that range restores the buffer. -/
theorem writeBytes_restore (l v : List Nat) (i n : Nat)
    (hi : i + n ≤ l.length) (hv : v.length = n) :
    writeBytes (writeBytes l i v) i (readBytes l i n) = l := by
  have hil : i ≤ l.length := le_trans (Nat.le_add_right i n) hi
  have ht : (l.take i).length = i := by
    simp [List.length_take, Nat.min_eq_left hil]
  have hm : (readBytes l i n).length = n := by
    simp only [readBytes, List.length_take, List.length_drop]
    exact Nat.min_eq_left (Nat.le_sub_of_add_le (by omega))
  have htv : (l.take i ++ v).length = i + n := by simp [ht, hv]
  have h1 : List.take i ((l.take i ++ v) ++ l.drop (i + n)) = l.take i := by
    rw [List.take_append_of_le_length (by omega : i ≤ (l.take i ++ v).length),
        List.take_append_of_le_length (le_of_eq ht.symm),
        List.take_take, Nat.min_self]
  have h2 : List.drop (i + n) ((l.take i ++ v) ++ l.drop (i + n)) = l.drop (i + n) :=
    List.drop_left' htv
  unfold writeBytes
  rw [hv, hm]
  rw [show l.take i ++ v ++ l.drop (i + n) = (l.take i ++ v) ++ l.drop (i + n) from rfl]
  rw [h1, h2, readBytes, ← List.take_add, List.take_append_drop]

/-! ## Claim C1: password encryption round trip -/

/-- C1: the claimed round trip `pwddecrypt (pwdencrypt p s a) s a = p` FAILS
on the code for any password longer than one block: `pwdencrypt` chains block
`j+1`'s MD5 input from `out + offset - 16` — the ciphertext block before the
one just produced, which for the second block lies before the `out` array
(uninitialized memory, here taken to be zero bytes) — while `pwddecrypt`
correctly chains from the ciphertext block just consumed.  Concretely, for
the 32-zero-byte password under secret `"x"` (byte `0x78`), a zero
authenticator and zero out-of-bounds bytes, decryption does not return the
password. -/
theorem pwd_roundtrip_fails_on_code :
    pwddecrypt md5 [120] (List.replicate 16 0)
      (pwdencrypt md5 (List.replicate 16 0) [120] (List.replicate 16 0)
        (List.replicate 32 0)) ≠ List.replicate 32 0 := by
  decide

/-! ## Claim C7: `checkmessageauth` is non-destructive -/

/-- C7: for every HMAC function, secret, packet and in-range 16-byte
attribute-value offset, the buffer `checkmessageauth` hands back is
byte-for-byte the input packet, whatever the verdict: the attribute value is
zeroed for the HMAC computation and restored on every path. -/
theorem checkmessageauth_nondestructive
    (hmac : List Nat → List Nat → List Nat) (secret rad : List Nat)
    (off : Nat) (h : off + 16 ≤ rad.length) :
    (checkmessageauth hmac secret rad off).2 = rad := by
  unfold checkmessageauth
  exact writeBytes_restore rad (List.replicate 16 0) off 16 h (by simp)

/-- Witness for C7 at a concrete packet: a 38-byte buffer of ones with the
attribute value at offset 20, under a constant HMAC. -/
theorem checkmessageauth_nondestructive_witness :
    (checkmessageauth (fun _ _ => List.replicate 16 0) [1, 2]
      (List.replicate 38 1) 20).2 = List.replicate 38 1 :=
  checkmessageauth_nondestructive (fun _ _ => List.replicate 16 0) [1, 2]
    (List.replicate 38 1) 20 (by simp)

/-! ## The per-server request table

`struct request` (one slot of a server's 256-entry table) and the operations
that touch it: `sendrq` (radsecproxy.c:1078), `rqinqueue`
(radsecproxy.c:1378), the duplicate-suppression call in `radsrv`
(radsecproxy.c:1805-1810), the per-slot work of `clientwr`
(radsecproxy.c:2126-2180), the `received` marking of `replyh` and
`removeclientrqs` (radsecproxy.c:474).

A slot whose C `buf` pointer is null is `none`; an in-use slot carries the
fields of `struct request` that these operations read or write.  `created`
is a ghost field recording the time the slot was filled (the spec's
`created_at`); no C code reads it.  Clients are identified by a `Nat`
(`from` is a pointer in C). -/

structure Req where
  buf : List Nat
  origid : Nat
  rqFrom : Option Nat
  received : Bool
  tries : Nat
  expiry : Nat
  created : Nat
  deriving DecidableEq, Repr

/-- A server's request table: the 256 slots and the `nextid` hint. -/
structure ReqTable where
  requests : List (Option Req)
  nextid : Nat
  deriving DecidableEq, Repr

/-- `!to->requests[i].buf`: slot `i` exists and is free. -/
def slotFree (reqs : List (Option Req)) (i : Nat) : Bool :=
  match reqs[i]? with
  | some none => true
  | _ => false

/-- The `for (i = lo; i < hi; i++) if (!requests[i].buf) break;` scan:
first free slot index in `[lo, hi)`, if any. -/
def scanFreeAux (reqs : List (Option Req)) : Nat → Nat → Option Nat
  | 0, _ => none
  | fuel + 1, i => if slotFree reqs i then some i else scanFreeAux reqs fuel (i + 1)

/-- First free slot in `[lo, hi)`. -/
def scanFree (reqs : List (Option Req)) (lo hi : Nat) : Option Nat :=
  scanFreeAux reqs (hi - lo) lo

/-- `attrget` (radsecproxy.c:1060): first attribute of type `t`, walking
`type(1) | len(1) | value` records while more than one byte remains.
Returns the attribute's absolute offset in `buf`.  The fuel equals the byte
count, making the C loop's progress explicit (validated packets have every
`ATTRLEN ≥ 2`). -/
def attrgetAux (buf : List Nat) (t : Nat) : Nat → Nat → Nat → Option Nat
  | 0, _, _ => none
  | fuel + 1, off, length =>
    if length > 1 then
      if buf.getD off 0 == t then some off
      else attrgetAux buf t fuel (off + buf.getD (off + 1) 0)
        (length - buf.getD (off + 1) 0)
    else none

/-- `attrget(buf + startOff, length, t)` with offsets kept absolute. -/
def attrget (buf : List Nat) (startOff length t : Nat) : Option Nat :=
  attrgetAux buf t (length + 1) startOff length

/-- Modelled from the spec: Message-Authenticator is attribute 80 (glossary). -/
def RAD_Attr_Message_Authenticator : Nat := 80

/-- `createmessageauth` (radsecproxy.c:1031) with the attribute value at
offset `off`: zero the 16 value bytes, HMAC the packet's `RADLEN` bytes,
write the MAC into the value.  Returns `none` when the HMAC computation
does not yield 16 bytes (`md_len != 16`), in which case the caller drops
the request. -/
def createmessageauth (hmac : List Nat → List Nat → List Nat)
    (secret rad : List Nat) (off : Nat) : Option (List Nat) :=
  let rad0 := writeBytes rad off (List.replicate 16 0)
  let mac := hmac secret (rad0.take (RADLEN rad0))
  if mac.length = 16 then some (writeBytes rad0 off mac) else none

/-- `sendrq` (radsecproxy.c:1078): scan `[nextid, 256)` then `[0, nextid)`
for a free slot; with none, drop the request and leave the table unchanged.
Otherwise write the slot index into byte 1 of the packet, recompute the
Message-Authenticator when the attribute is present (dropping the request if
that fails), store the request in the slot and advance `nextid` to `i + 1`.
Returns the new table and the slot used, `none` when dropped. -/
def sendrq (hmac : List Nat → List Nat → List Nat) (secret : List Nat)
    (t : ReqTable) (rq : Req) : ReqTable × Option Nat :=
  let i? :=
    match scanFree t.requests t.nextid MAX_REQUESTS with
    | some i => some i
    | none => scanFree t.requests 0 t.nextid
  match i? with
  | none => (t, none)
  | some i =>
    let buf1 := rq.buf.set 1 i
    let buf2? :=
      match attrget buf1 20 (RADLEN buf1 - 20) RAD_Attr_Message_Authenticator with
      | none => some buf1
      | some aoff => createmessageauth hmac secret buf1 (aoff + 2)
    match buf2? with
    | none => (t, none)
    | some buf2 =>
      ({ requests := t.requests.set i (some { rq with buf := buf2 }),
         nextid := i + 1 }, some i)

/-- `rqinqueue` (radsecproxy.c:1378): is there an in-use, unreceived slot
whose `origid` and `from` match the inbound `(client, id)`? -/
def rqinqueue (t : ReqTable) (client : Nat) (id : Nat) : Bool :=
  t.requests.any fun s =>
    match s with
    | some rq => !rq.received && rq.origid == id && rq.rqFrom == some client
    | none => false

/-- The duplicate-suppression step of `radsrv` (radsecproxy.c:1805-1810)
composed with `sendrq`: an Access-Request from `client` with original id
`id` is dropped when `rqinqueue` finds a matching slot, otherwise enqueued
with `origid = id`, `from = client`, fresh (zeroed) `received`, `tries` and
`expiry` — `udpserverrd` and `tlsserverrd` `memset` the request to zero —
and ghost creation time `now`. -/
def freshClientReq (buf : List Nat) (client id now : Nat) : Req :=
  { buf := buf, origid := id, rqFrom := some client, received := false,
    tries := 0, expiry := 0, created := now }

def radsrvEnqueue (hmac : List Nat → List Nat → List Nat) (secret : List Nat)
    (t : ReqTable) (client : Nat) (id : Nat) (buf : List Nat) (now : Nat) :
    ReqTable :=
  if rqinqueue t client id then t
  else (sendrq hmac secret t (freshClientReq buf client id now)).1

/-- The Status-Server probe enqueue of `clientwr` (radsecproxy.c:2182-2196):
`statsrvrq` is zeroed, so `from` is null and no duplicate check runs. -/
def freshProbeReq (buf : List Nat) (now : Nat) : Req :=
  { buf := buf, origid := 0, rqFrom := none, received := false,
    tries := 0, expiry := 0, created := now }

def statusProbeEnqueue (hmac : List Nat → List Nat → List Nat)
    (secret : List Nat) (t : ReqTable) (buf : List Nat) (now : Nat) :
    ReqTable :=
  (sendrq hmac secret t (freshProbeReq buf now)).1

/-- `max_tries` of a slot: 1 for a Status-Server probe (`*rq->buf == 12`)
or a TLS upstream, `REQUEST_RETRIES` for UDP (radsecproxy.c:2156-2157). -/
def maxTries (serverIsTLS : Bool) (rq : Req) : Nat :=
  if rq.buf.getD 0 0 == RAD_Status_Server || serverIsTLS then 1
  else REQUEST_RETRIES

/-- One in-use slot's treatment by the `clientwr` scan at time `now`
(radsecproxy.c:2137-2178): received → free; not yet expired → unchanged;
`tries == max_tries` → free; otherwise reset `expiry` and bump `tries`
(the retransmission itself has no table effect). -/
def clientwrSlot (serverIsTLS : Bool) (now : Nat) (rq : Req) : Option Req :=
  if rq.received then none
  else if now < rq.expiry then some rq
  else if rq.tries == maxTries serverIsTLS rq then none
  else some { rq with
    expiry := now + (if rq.buf.getD 0 0 == RAD_Status_Server || serverIsTLS
                     then REQUEST_EXPIRY else REQUEST_EXPIRY / REQUEST_RETRIES),
    tries := rq.tries + 1 }

/-- The `clientwr` treatment of slot `i` (free slots are skipped). -/
def clientwrStep (serverIsTLS : Bool) (t : ReqTable) (i : Nat) (now : Nat) :
    ReqTable :=
  match t.requests[i]? with
  | some (some rq) =>
    { t with requests := t.requests.set i (clientwrSlot serverIsTLS now rq) }
  | _ => t

/-- `replyh` marking slot `i` received (radsecproxy.c:1932,2027); it never
frees the slot or changes its identity fields. -/
def markReceived (t : ReqTable) (i : Nat) : ReqTable :=
  match t.requests[i]? with
  | some (some rq) =>
    { t with requests := t.requests.set i (some { rq with received := true }) }
  | _ => t

/-- `removeclientrqs` (radsecproxy.c:474): null out `from` in every slot
referencing the departing client. -/
def removeclientrqs (t : ReqTable) (client : Nat) : ReqTable :=
  { t with requests := t.requests.map fun s =>
      match s with
      | some rq => some (if rq.rqFrom == some client
                         then { rq with rqFrom := none } else rq)
      | none => none }

/-! ## Properties of the slot scan -/

theorem scanFreeAux_some_spec (reqs : List (Option Req)) :
    ∀ fuel lo i, scanFreeAux reqs fuel lo = some i →
      lo ≤ i ∧ i < lo + fuel ∧ slotFree reqs i = true ∧
      ∀ j, lo ≤ j → j < i → slotFree reqs j = false := by
  intro fuel
  induction fuel with
  | zero => intro lo i h; simp [scanFreeAux] at h
  | succ n ih =>
    intro lo i h
    simp only [scanFreeAux] at h
    by_cases hf : slotFree reqs lo
    · rw [if_pos hf] at h
      cases h
      exact ⟨le_refl _, by omega, hf, fun j h1 h2 => absurd h1 (by omega)⟩
    · rw [if_neg hf] at h
      obtain ⟨h1, h2, h3, h4⟩ := ih (lo + 1) i h
      refine ⟨by omega, by omega, h3, fun j hj1 hj2 => ?_⟩
      rcases Nat.eq_or_lt_of_le hj1 with rfl | hlt
      · simpa using hf
      · exact h4 j hlt hj2

theorem scanFreeAux_none_spec (reqs : List (Option Req)) :
    ∀ fuel lo, scanFreeAux reqs fuel lo = none →
      ∀ j, lo ≤ j → j < lo + fuel → slotFree reqs j = false := by
  intro fuel
  induction fuel with
  | zero => intro lo _ j h1 h2; omega
  | succ n ih =>
    intro lo h j h1 h2
    simp only [scanFreeAux] at h
    by_cases hf : slotFree reqs lo
    · rw [if_pos hf] at h; cases h
    · rw [if_neg hf] at h
      rcases Nat.eq_or_lt_of_le h1 with rfl | hlt
      · simpa using hf
      · exact ih (lo + 1) h j hlt (by omega)

/-- `attrget` only returns offsets at or past the start of the walk. -/
theorem attrgetAux_ge (buf : List Nat) (t : Nat) :
    ∀ fuel off len i, attrgetAux buf t fuel off len = some i → off ≤ i := by
  intro fuel
  induction fuel with
  | zero => intro off len i h; simp [attrgetAux] at h
  | succ n ih =>
    intro off len i h
    simp only [attrgetAux] at h
    split at h
    · split at h
      · cases h; exact le_refl _
      · exact le_trans (Nat.le_add_right off _) (ih _ _ _ h)
    · cases h

/-- A write at offset `o` leaves bytes before `o` unchanged. -/
theorem writeBytes_getElem?_lt (l v : List Nat) (o k : Nat)
    (hk : k < o) (hkl : k < l.length) :
    (writeBytes l o v)[k]? = l[k]? := by
  unfold writeBytes
  have h1 : k < (l.take o).length := by
    simp only [List.length_take]; omega
  rw [List.append_assoc, List.getElem?_append_left h1, List.getElem?_take,
    if_pos hk]

theorem getElem?_set_self (l : List Nat) (k a : Nat) (h : k < l.length) :
    (l.set k a)[k]? = some a := by
  rw [List.getElem?_set_self', List.getElem?_eq_getElem h]
  rfl

/-- A free slot index is inside the table. -/
theorem slotFree_lt_length (reqs : List (Option Req)) (j : Nat)
    (h : slotFree reqs j = true) : j < reqs.length := by
  by_contra hc
  have hn : reqs[j]? = none := List.getElem?_eq_none (by omega)
  simp [slotFree, hn] at h

/-! ## Claim C3: `sendrq` slot allocation -/

/-- C3: `sendrq` scans `[nextid, 256)` for the first free slot, then
`[0, nextid)`; with no free slot the request is dropped and the table is
unchanged; with a free slot (and an HMAC that, like HMAC-MD5, always yields
16 bytes) a slot is allocated; and whenever slot `i` is allocated, `i` was
free and first in the scan order, the request is stored there with byte 1
of its packet set to `i`, `nextid` becomes `i + 1`, and no other slot
changes. -/
theorem sendrq_allocation (hmac : List Nat → List Nat → List Nat)
    (secret : List Nat) (t : ReqTable) (rq : Req)
    (hlen : t.requests.length = MAX_REQUESTS)
    (hh : ∀ s m, (hmac s m).length = 16) (hbuf : 2 ≤ rq.buf.length) :
    ((∀ j, j < MAX_REQUESTS → slotFree t.requests j = false) →
      sendrq hmac secret t rq = (t, none)) ∧
    ((∃ j, slotFree t.requests j = true) →
      ∃ i, (sendrq hmac secret t rq).2 = some i) ∧
    (∀ i, (sendrq hmac secret t rq).2 = some i →
      slotFree t.requests i = true ∧
      ((t.nextid ≤ i ∧ i < MAX_REQUESTS ∧
        ∀ j, t.nextid ≤ j → j < i → slotFree t.requests j = false) ∨
       (i < t.nextid ∧
        (∀ j, t.nextid ≤ j → j < MAX_REQUESTS → slotFree t.requests j = false) ∧
        ∀ j, j < i → slotFree t.requests j = false)) ∧
      (sendrq hmac secret t rq).1.nextid = i + 1 ∧
      ∃ rq', (sendrq hmac secret t rq).1.requests = t.requests.set i (some rq') ∧
        rq'.buf[1]? = some i ∧ rq'.origid = rq.origid ∧
        rq'.rqFrom = rq.rqFrom ∧ rq'.received = rq.received ∧
        rq'.tries = rq.tries ∧ rq'.expiry = rq.expiry) := by
  have hfree_lt : ∀ j, slotFree t.requests j = true → j < MAX_REQUESTS := by
    intro j hj
    have := slotFree_lt_length t.requests j hj
    omega
  have hstep : ∀ i : Nat, ∃ buf2,
      (match attrget (rq.buf.set 1 i) 20 (RADLEN (rq.buf.set 1 i) - 20)
          RAD_Attr_Message_Authenticator with
        | none => some (rq.buf.set 1 i)
        | some aoff => createmessageauth hmac secret (rq.buf.set 1 i) (aoff + 2)) =
        some buf2 ∧ buf2[1]? = some i := by
    intro i
    have hb1 : (rq.buf.set 1 i)[1]? = some i :=
      getElem?_set_self rq.buf 1 i (by omega)
    cases hattr : attrget (rq.buf.set 1 i) 20 (RADLEN (rq.buf.set 1 i) - 20)
        RAD_Attr_Message_Authenticator with
    | none => exact ⟨rq.buf.set 1 i, rfl, hb1⟩
    | some aoff =>
      have hge : 20 ≤ aoff := attrgetAux_ge _ _ _ _ _ _ hattr
      have h2a : (1 : Nat) < aoff + 2 := by omega
      have hl1 : (1 : Nat) < (rq.buf.set 1 i).length := by
        simp only [List.length_set]; omega
      have hl2 : (1 : Nat) <
          (writeBytes (rq.buf.set 1 i) (aoff + 2) (List.replicate 16 0)).length := by
        simp only [writeBytes, List.length_append, List.length_take,
          List.length_drop, List.length_replicate]
        omega
      have hcm : createmessageauth hmac secret (rq.buf.set 1 i) (aoff + 2) =
          some (writeBytes (writeBytes (rq.buf.set 1 i) (aoff + 2)
              (List.replicate 16 0)) (aoff + 2)
            (hmac secret
              ((writeBytes (rq.buf.set 1 i) (aoff + 2) (List.replicate 16 0)).take
                (RADLEN (writeBytes (rq.buf.set 1 i) (aoff + 2)
                  (List.replicate 16 0)))))) := by
        unfold createmessageauth
        rw [if_pos (hh _ _)]
      refine ⟨_, hcm, ?_⟩
      rw [writeBytes_getElem?_lt _ _ _ _ h2a hl2,
        writeBytes_getElem?_lt _ _ _ _ h2a hl1, hb1]
  refine ⟨?_, ?_, ?_⟩
  · intro hall
    have h1 : scanFree t.requests t.nextid MAX_REQUESTS = none := by
      cases h : scanFree t.requests t.nextid MAX_REQUESTS with
      | none => rfl
      | some i =>
        obtain ⟨_, _, hc, _⟩ := scanFreeAux_some_spec t.requests _ _ _ h
        rw [hall i (hfree_lt i hc)] at hc
        cases hc
    have h2 : scanFree t.requests 0 t.nextid = none := by
      cases h : scanFree t.requests 0 t.nextid with
      | none => rfl
      | some i =>
        obtain ⟨_, _, hc, _⟩ := scanFreeAux_some_spec t.requests _ _ _ h
        rw [hall i (hfree_lt i hc)] at hc
        cases hc
    simp [sendrq, h1, h2]
  · rintro ⟨j, hj⟩
    have hjlt := hfree_lt j hj
    cases h1 : scanFree t.requests t.nextid MAX_REQUESTS with
    | some i =>
      obtain ⟨buf2, hb2, _⟩ := hstep i
      exact ⟨i, by simp [sendrq, h1, hb2]⟩
    | none =>
      cases h2 : scanFree t.requests 0 t.nextid with
      | some i =>
        obtain ⟨buf2, hb2, _⟩ := hstep i
        exact ⟨i, by simp [sendrq, h1, h2, hb2]⟩
      | none =>
        exfalso
        rcases Nat.lt_or_ge j t.nextid with hlt | hge
        · have := scanFreeAux_none_spec t.requests _ _ h2 j (Nat.zero_le j) (by omega)
          rw [this] at hj
          cases hj
        · have := scanFreeAux_none_spec t.requests _ _ h1 j hge (by omega)
          rw [this] at hj
          cases hj
  · intro i hres
    cases h1 : scanFree t.requests t.nextid MAX_REQUESTS with
    | some i0 =>
      obtain ⟨buf2, hb2, hbyte⟩ := hstep i0
      have heq : sendrq hmac secret t rq =
          ({ requests := t.requests.set i0 (some { rq with buf := buf2 }),
             nextid := i0 + 1 }, some i0) := by
        simp [sendrq, h1, hb2]
      rw [heq] at hres
      cases hres
      obtain ⟨ha, hb, hc, hd⟩ := scanFreeAux_some_spec t.requests _ _ _ h1
      refine ⟨hc, Or.inl ⟨ha, hfree_lt i hc, fun j hj1 hj2 => hd j hj1 hj2⟩, ?_, ?_⟩
      · rw [heq]
      · exact ⟨{ rq with buf := buf2 }, by rw [heq], hbyte, rfl, rfl, rfl, rfl, rfl⟩
    | none =>
      cases h2 : scanFree t.requests 0 t.nextid with
      | some i0 =>
        obtain ⟨buf2, hb2, hbyte⟩ := hstep i0
        have heq : sendrq hmac secret t rq =
            ({ requests := t.requests.set i0 (some { rq with buf := buf2 }),
               nextid := i0 + 1 }, some i0) := by
          simp [sendrq, h1, h2, hb2]
        rw [heq] at hres
        cases hres
        obtain ⟨_, hb, hc, hd⟩ := scanFreeAux_some_spec t.requests _ _ _ h2
        have hnl : ∀ j, t.nextid ≤ j → j < MAX_REQUESTS →
            slotFree t.requests j = false :=
          fun j hj1 hj2 => scanFreeAux_none_spec t.requests _ _ h1 j hj1 (by omega)
        refine ⟨hc, Or.inr ⟨by omega, hnl, fun j hj => hd j (Nat.zero_le j) hj⟩, ?_, ?_⟩
        · rw [heq]
        · exact ⟨{ rq with buf := buf2 }, by rw [heq], hbyte, rfl, rfl, rfl, rfl, rfl⟩
      | none =>
        have hdrop : sendrq hmac secret t rq = (t, none) := by simp [sendrq, h1, h2]
        rw [hdrop] at hres
        cases hres


/-- Witness for C3: on the empty 256-slot table a slot is allocated for a
20-byte Access-Request. -/
theorem sendrq_allocation_witness :
    ∃ i, (sendrq (fun _ _ => List.replicate 16 0) []
      { requests := List.replicate 256 none, nextid := 0 }
      { buf := [1, 0, 0, 20] ++ List.replicate 16 0, origid := 7,
        rqFrom := some 3, received := false, tries := 0, expiry := 0,
        created := 0 }).2 = some i :=
  (sendrq_allocation (fun _ _ => List.replicate 16 0) []
    { requests := List.replicate 256 none, nextid := 0 }
    { buf := [1, 0, 0, 20] ++ List.replicate 16 0, origid := 7,
      rqFrom := some 3, received := false, tries := 0, expiry := 0,
      created := 0 }
    (by simp [MAX_REQUESTS]) (fun _ _ => by simp) (by simp)).2.1
    ⟨0, by decide⟩

/-! ## Reachable table states

The operations above, composed into a step relation over the table and a
monotone clock, as the concurrency model: each critical section (all table
scans and updates run under `newrq_mutex`) is one atomic step. -/

structure PSt where
  table : ReqTable
  now : Nat

/-- One atomic operation on a server's request table. -/
inductive Step (hmac : List Nat → List Nat → List Nat) (secret : List Nat)
    (tls : Bool) : PSt → PSt → Prop
  | enqueue (s : PSt) (client id : Nat) (buf : List Nat) :
      Step hmac secret tls s
        ⟨radsrvEnqueue hmac secret s.table client id buf s.now, s.now⟩
  | probe (s : PSt) (buf : List Nat) :
      Step hmac secret tls s
        ⟨statusProbeEnqueue hmac secret s.table buf s.now, s.now⟩
  | writer (s : PSt) (i : Nat) :
      Step hmac secret tls s ⟨clientwrStep tls s.table i s.now, s.now⟩
  | receive (s : PSt) (i : Nat) :
      Step hmac secret tls s ⟨markReceived s.table i, s.now⟩
  | clientGone (s : PSt) (c : Nat) :
      Step hmac secret tls s ⟨removeclientrqs s.table c, s.now⟩
  | tick (s : PSt) (d : Nat) :
      Step hmac secret tls s ⟨s.table, s.now + d⟩

/-- States reachable from the freshly `calloc`ed table (radsecproxy.c:533). -/
inductive Reachable (hmac : List Nat → List Nat → List Nat) (secret : List Nat)
    (tls : Bool) : PSt → Prop
  | init : Reachable hmac secret tls ⟨⟨List.replicate MAX_REQUESTS none, 0⟩, 0⟩
  | step {s s' : PSt} : Reachable hmac secret tls s → Step hmac secret tls s s' →
      Reachable hmac secret tls s'

/-- Slot value `v` is an in-use, unreceived request from `(client c, origid k)`. -/
def slotMatches (c k : Nat) (v : Option (Option Req)) : Prop :=
  ∃ rq, v = some (some rq) ∧ rq.received = false ∧ rq.origid = k ∧
    rq.rqFrom = some c

/-- The C2 invariant: at most one unreceived in-use slot per `(client, origid)`. -/
def atMostOnePerKey (t : ReqTable) : Prop :=
  ∀ (c k i j : Nat), slotMatches c k t.requests[i]? →
    slotMatches c k t.requests[j]? → i = j

theorem rqinqueue_false_no_match (t : ReqTable) (c k : Nat)
    (h : rqinqueue t c k = false) :
    ∀ (i : Nat), ¬ slotMatches c k t.requests[i]? := by
  rintro i ⟨rq, hv, hrecv, horig, hfrom⟩
  have hmem : (some rq) ∈ t.requests :=
    List.get?_mem (by rwa [List.get?_eq_getElem?])
  have := (List.any_eq_false.mp h) (some rq) hmem
  simp [hrecv, horig, hfrom] at this

/-- `sendrq` either drops (table unchanged) or stores the request, with its
buffer rewritten, in a previously free slot. -/
theorem sendrq_cases (hmac : List Nat → List Nat → List Nat) (secret : List Nat)
    (t : ReqTable) (rq : Req) :
    (sendrq hmac secret t rq).1 = t ∨
    ∃ i buf2, slotFree t.requests i = true ∧
      (sendrq hmac secret t rq).1 =
        ⟨t.requests.set i (some { rq with buf := buf2 }), i + 1⟩ := by
  unfold sendrq
  cases h1 : scanFree t.requests t.nextid MAX_REQUESTS with
  | some i =>
    obtain ⟨_, _, hc, _⟩ := scanFreeAux_some_spec t.requests _ _ _ h1
    cases h2 : (match attrget (rq.buf.set 1 i) 20 (RADLEN (rq.buf.set 1 i) - 20)
        RAD_Attr_Message_Authenticator with
      | none => some (rq.buf.set 1 i)
      | some aoff => createmessageauth hmac secret (rq.buf.set 1 i) (aoff + 2)) with
    | none => exact Or.inl (by simp [h2])
    | some buf2 => exact Or.inr ⟨i, buf2, hc, by simp [h2]⟩
  | none =>
    cases h1' : scanFree t.requests 0 t.nextid with
    | some i =>
      obtain ⟨_, _, hc, _⟩ := scanFreeAux_some_spec t.requests _ _ _ h1'
      cases h2 : (match attrget (rq.buf.set 1 i) 20 (RADLEN (rq.buf.set 1 i) - 20)
          RAD_Attr_Message_Authenticator with
        | none => some (rq.buf.set 1 i)
        | some aoff => createmessageauth hmac secret (rq.buf.set 1 i) (aoff + 2)) with
      | none => exact Or.inl (by simp [h2])
      | some buf2 => exact Or.inr ⟨i, buf2, hc, by simp [h2]⟩
    | none => exact Or.inl rfl

/-- Inserting into a free slot: the slot reads the new value, every other
slot reads unchanged. -/
theorem set_getElem?_of_free (reqs : List (Option Req)) (i : Nat)
    (v : Option Req) (hfree : slotFree reqs i = true) :
    (reqs.set i v)[i]? = some v ∧
    ∀ (j : Nat), j ≠ i → (reqs.set i v)[j]? = reqs[j]? := by
  have hlt : i < reqs.length := slotFree_lt_length reqs i hfree
  constructor
  · rw [List.getElem?_set, if_pos rfl, if_pos hlt]
  · intro j hj
    rw [List.getElem?_set, if_neg (fun h => hj h.symm)]

/-- If every match of `t'` is a match of `t` at the same index, the
invariant carries over. -/
theorem atMostOnePerKey_mono (t t' : ReqTable)
    (h : ∀ (c k j : Nat), slotMatches c k t'.requests[j]? →
      slotMatches c k t.requests[j]?)
    (hinv : atMostOnePerKey t) : atMostOnePerKey t' :=
  fun c k i j hi hj => hinv c k i j (h c k i hi) (h c k j hj)

/-- The `clientwr` slot update keeps the identity fields of a surviving slot. -/
theorem clientwrSlot_fields (tls : Bool) (now : Nat) (rq rq' : Req)
    (h : clientwrSlot tls now rq = some rq') :
    rq'.received = rq.received ∧ rq'.origid = rq.origid ∧
    rq'.rqFrom = rq.rqFrom ∧ rq'.buf = rq.buf ∧ rq'.created = rq.created := by
  unfold clientwrSlot at h
  split at h
  · cases h
  · split at h
    · cases h; exact ⟨rfl, rfl, rfl, rfl, rfl⟩
    · split at h
      · cases h
      · cases h; exact ⟨rfl, rfl, rfl, rfl, rfl⟩

theorem atMostOnePerKey_enqueue (hmac : List Nat → List Nat → List Nat)
    (secret : List Nat) (t : ReqTable) (client id : Nat) (buf : List Nat)
    (now : Nat) (hinv : atMostOnePerKey t) :
    atMostOnePerKey (radsrvEnqueue hmac secret t client id buf now) := by
  unfold radsrvEnqueue
  cases hdup : rqinqueue t client id with
  | true => simpa using hinv
  | false =>
    simp only [Bool.false_eq_true, if_false]
    rcases sendrq_cases hmac secret t (freshClientReq buf client id now) with
      h | ⟨i, buf2, hfree, heq⟩
    · rw [h]; exact hinv
    · rw [heq]
      obtain ⟨hat, hother⟩ := set_getElem?_of_free t.requests i
        (some { freshClientReq buf client id now with buf := buf2 }) hfree
      unfold atMostOnePerKey
      intro c k i' j' hi' hj'
      have hkey : ∀ (m : Nat), slotMatches c k (t.requests.set i
          (some { freshClientReq buf client id now with buf := buf2 }))[m]? →
          m = i → c = client ∧ k = id := by
        rintro m ⟨rq, hv, _, horig, hfrom⟩ rfl
        rw [hat] at hv
        cases hv
        refine ⟨(Option.some.inj hfrom).symm, ?_⟩
        exact horig.symm
      have hold : ∀ (m : Nat), m ≠ i → slotMatches c k (t.requests.set i
          (some { freshClientReq buf client id now with buf := buf2 }))[m]? →
          slotMatches c k t.requests[m]? := by
        intro m hm hsm
        obtain ⟨rq, hv, h1, h2, h3⟩ := hsm
        rw [hother m hm] at hv
        exact ⟨rq, hv, h1, h2, h3⟩
      by_cases hii : i' = i <;> by_cases hjj : j' = i
      · rw [hii, hjj]
      · exfalso
        obtain ⟨hc, hk⟩ := hkey i' hi' hii
        refine rqinqueue_false_no_match t client id hdup j' ?_
        have hm := hold j' hjj hj'
        rwa [hc, hk] at hm
      · exfalso
        obtain ⟨hc, hk⟩ := hkey j' hj' hjj
        refine rqinqueue_false_no_match t client id hdup i' ?_
        have hm := hold i' hii hi'
        rwa [hc, hk] at hm
      · exact hinv c k i' j' (hold i' hii hi') (hold j' hjj hj')

theorem atMostOnePerKey_probe (hmac : List Nat → List Nat → List Nat)
    (secret : List Nat) (t : ReqTable) (buf : List Nat) (now : Nat)
    (hinv : atMostOnePerKey t) :
    atMostOnePerKey (statusProbeEnqueue hmac secret t buf now) := by
  unfold statusProbeEnqueue
  rcases sendrq_cases hmac secret t (freshProbeReq buf now) with
    h | ⟨i, buf2, hfree, heq⟩
  · rw [h]; exact hinv
  · rw [heq]
    obtain ⟨hat, hother⟩ := set_getElem?_of_free t.requests i
      (some { freshProbeReq buf now with buf := buf2 }) hfree
    refine atMostOnePerKey_mono t _ ?_ hinv
    intro c k j hsm
    obtain ⟨rq, hv, h1, h2, h3⟩ := hsm
    by_cases hj : j = i
    · exfalso
      rw [hj, hat] at hv
      cases hv
      cases h3
    · rw [hother j hj] at hv
      exact ⟨rq, hv, h1, h2, h3⟩

theorem atMostOnePerKey_writer (tls : Bool) (t : ReqTable) (i now : Nat)
    (hinv : atMostOnePerKey t) : atMostOnePerKey (clientwrStep tls t i now) := by
  unfold clientwrStep
  cases hq : t.requests[i]? with
  | none => exact hinv
  | some o =>
    cases o with
    | none => exact hinv
    | some rq =>
      refine atMostOnePerKey_mono t _ ?_ hinv
      intro c k j hsm
      obtain ⟨rq', hv, hrecv, horig, hfrom⟩ := hsm
      by_cases hj : j = i
      · subst hj
        have hlt : j < t.requests.length := by
          by_contra hc
          rw [List.getElem?_set, if_pos rfl, if_neg (by omega)] at hv
          cases hv
        rw [List.getElem?_set, if_pos rfl, if_pos hlt] at hv
        have hs : clientwrSlot tls now rq = some rq' := Option.some.inj hv
        obtain ⟨h1, h2, h3, _, _⟩ := clientwrSlot_fields tls now rq rq' hs
        exact ⟨rq, hq, h1 ▸ hrecv, h2 ▸ horig, h3 ▸ hfrom⟩
      · rw [List.getElem?_set, if_neg (fun h => hj h.symm)] at hv
        exact ⟨rq', hv, hrecv, horig, hfrom⟩

theorem atMostOnePerKey_receive (t : ReqTable) (i : Nat)
    (hinv : atMostOnePerKey t) : atMostOnePerKey (markReceived t i) := by
  unfold markReceived
  cases hq : t.requests[i]? with
  | none => exact hinv
  | some o =>
    cases o with
    | none => exact hinv
    | some rq =>
      refine atMostOnePerKey_mono t _ ?_ hinv
      intro c k j hsm
      obtain ⟨rq', hv, hrecv, horig, hfrom⟩ := hsm
      by_cases hj : j = i
      · subst hj
        have hlt : j < t.requests.length := by
          by_contra hc
          rw [List.getElem?_set, if_pos rfl, if_neg (by omega)] at hv
          cases hv
        rw [List.getElem?_set, if_pos rfl, if_pos hlt] at hv
        cases hv
        cases hrecv
      · rw [List.getElem?_set, if_neg (fun h => hj h.symm)] at hv
        exact ⟨rq', hv, hrecv, horig, hfrom⟩

theorem atMostOnePerKey_clientGone (t : ReqTable) (c0 : Nat)
    (hinv : atMostOnePerKey t) : atMostOnePerKey (removeclientrqs t c0) := by
  unfold removeclientrqs
  refine atMostOnePerKey_mono t _ ?_ hinv
  intro c k j hsm
  obtain ⟨rq', hv, hrecv, horig, hfrom⟩ := hsm
  simp only [List.getElem?_map] at hv
  cases hq : t.requests[j]? with
  | none => rw [hq] at hv; cases hv
  | some o =>
    rw [hq] at hv
    cases o with
    | none => cases hv
    | some rq =>
      simp only [Option.map_some'] at hv
      cases hv
      by_cases hc : rq.rqFrom = some c0
      · exfalso
        rw [if_pos (by simp [hc])] at hfrom
        cases hfrom
      · rw [if_neg (by simp [hc])] at hrecv horig hfrom
        exact ⟨rq, rfl, hrecv, horig, hfrom⟩

theorem atMostOnePerKey_init :
    atMostOnePerKey ⟨List.replicate MAX_REQUESTS none, 0⟩ := by
  unfold atMostOnePerKey
  rintro c k i j ⟨rq, hv, _⟩ _
  exfalso
  rcases Nat.lt_or_ge i MAX_REQUESTS with h | h
  · rw [show ((⟨List.replicate MAX_REQUESTS none, 0⟩ : ReqTable).requests)[i]? =
        some none from by simp [List.getElem?_replicate, h]] at hv
    cases hv
  · rw [List.getElem?_eq_none (by simpa using h)] at hv
    cases hv

/-! ## Claim C2: duplicate suppression and uniqueness -/

/-- C2: `radsrv` drops an inbound Access-Request whose `(client, origid)`
matches an in-use, unreceived slot, leaving the table untouched; and in
every reachable table state there is at most one unreceived in-use slot per
`(client, origid)` for this upstream. -/
theorem duplicate_suppression (hmac : List Nat → List Nat → List Nat)
    (secret : List Nat) (tls : Bool) :
    (∀ t client id buf now, rqinqueue t client id = true →
      radsrvEnqueue hmac secret t client id buf now = t) ∧
    (∀ s, Reachable hmac secret tls s → atMostOnePerKey s.table) := by
  constructor
  · intro t client id buf now h
    simp [radsrvEnqueue, h]
  · intro s h
    induction h with
    | init => exact atMostOnePerKey_init
    | step _ hstep ih =>
      cases hstep with
      | enqueue client id buf => exact atMostOnePerKey_enqueue _ _ _ _ _ _ _ ih
      | probe buf => exact atMostOnePerKey_probe _ _ _ _ _ ih
      | writer i => exact atMostOnePerKey_writer _ _ _ _ ih
      | receive i => exact atMostOnePerKey_receive _ _ ih
      | clientGone c => exact atMostOnePerKey_clientGone _ _ ih
      | tick d => exact ih

/-- Witness for C2: a duplicate `(client 3, origid 7)` arriving at a concrete
table that already holds a matching unreceived slot is dropped, and the
invariant holds at the initial state. -/
theorem duplicate_suppression_witness :
    radsrvEnqueue (fun _ _ => List.replicate 16 0) []
      { requests := (List.replicate 256 (none : Option Req)).set 0
          (some { buf := [1], origid := 7, rqFrom := some 3, received := false,
                  tries := 1, expiry := 9, created := 0 }), nextid := 5 } 3 7 [] 0 =
      { requests := (List.replicate 256 (none : Option Req)).set 0
          (some { buf := [1], origid := 7, rqFrom := some 3, received := false,
                  tries := 1, expiry := 9, created := 0 }), nextid := 5 } ∧
    atMostOnePerKey ⟨List.replicate MAX_REQUESTS none, 0⟩ :=
  ⟨(duplicate_suppression (fun _ _ => List.replicate 16 0) [] false).1 _ 3 7 [] 0
    (by decide),
   (duplicate_suppression (fun _ _ => List.replicate 16 0) [] false).2 _
    Reachable.init⟩

/-! ## Claim C8: retry counter and expiry bounds -/

/-- Initially no slot is in use. -/
theorem init_no_inuse (i : Nat) (rq : Req) :
    (List.replicate MAX_REQUESTS (none : Option Req))[i]? ≠ some (some rq) := by
  intro h
  rcases Nat.lt_or_ge i MAX_REQUESTS with hlt | hge
  · rw [List.getElem?_replicate, if_pos hlt] at h
    cases h
  · rw [List.getElem?_eq_none (by simpa using hge)] at h
    cases h

/-- A surviving `clientwr` slot is either untouched or retransmitted with
the retry counter bumped and a fresh expiry. -/
theorem clientwrSlot_cases (tls : Bool) (now : Nat) (rq rq' : Req)
    (h : clientwrSlot tls now rq = some rq') :
    rq' = rq ∨
    (rq.tries ≠ maxTries tls rq ∧
      rq' = { rq with
        expiry := now + (if rq.buf.getD 0 0 == RAD_Status_Server || tls
                         then REQUEST_EXPIRY
                         else REQUEST_EXPIRY / REQUEST_RETRIES),
        tries := rq.tries + 1 }) := by
  unfold clientwrSlot at h
  split at h
  · cases h
  · split at h
    · exact Or.inl (Option.some.inj h).symm
    · split at h
      · cases h
      · rename_i hne
        exact Or.inr ⟨by simpa using hne, (Option.some.inj h).symm⟩

/-- Every slot can still be retried at least once. -/
theorem maxTries_pos (tls : Bool) (rq : Req) : 1 ≤ maxTries tls rq := by
  unfold maxTries REQUEST_RETRIES
  split <;> omega

/-- The C8 state bound: what actually holds of every in-use slot. -/
def slotBounds (tls : Bool) (now : Nat) (t : ReqTable) : Prop :=
  ∀ (i : Nat) (rq : Req), t.requests[i]? = some (some rq) →
    rq.tries ≤ maxTries tls rq ∧ rq.created ≤ now ∧
    (1 ≤ rq.tries → rq.created < rq.expiry)

theorem slotBounds_insert (tls : Bool) (now : Nat) (t : ReqTable) (rq0 : Req)
    (hmac : List Nat → List Nat → List Nat) (secret : List Nat)
    (h0 : rq0.tries = 0) (hc0 : rq0.created = now)
    (hb : slotBounds tls now t) :
    slotBounds tls now ⟨(sendrq hmac secret t rq0).1.requests,
      (sendrq hmac secret t rq0).1.nextid⟩ := by
  rcases sendrq_cases hmac secret t rq0 with h | ⟨i, buf2, hfree, heq⟩
  · rw [h]; exact hb
  · rw [heq]
    intro j rq hv
    by_cases hj : j = i
    · subst hj
      obtain ⟨hat, _⟩ := set_getElem?_of_free t.requests j
        (some { rq0 with buf := buf2 }) hfree
      rw [hat] at hv
      have : ({ rq0 with buf := buf2 } : Req) = rq := by
        have := Option.some.inj hv
        exact Option.some.inj this
      rw [← this]
      refine ⟨?_, ?_, ?_⟩
      · simp only [h0]
        exact Nat.le_trans (Nat.zero_le _) (maxTries_pos tls _)
      · simpa using Nat.le_of_eq hc0
      · intro h1
        simp only [h0] at h1
        omega
    · obtain ⟨_, hother⟩ := set_getElem?_of_free t.requests i
        (some { rq0 with buf := buf2 }) hfree
      rw [hother j hj] at hv
      exact hb j rq hv

theorem slotBounds_writer (tls : Bool) (t : ReqTable) (i now : Nat)
    (hb : slotBounds tls now t) : slotBounds tls now (clientwrStep tls t i now) := by
  unfold clientwrStep
  cases hq : t.requests[i]? with
  | none => exact hb
  | some o =>
    cases o with
    | none => exact hb
    | some rq =>
      intro j rq' hv
      by_cases hj : j = i
      · subst hj
        have hlt : j < t.requests.length := by
          by_contra hc
          rw [List.getElem?_set, if_pos rfl, if_neg (by omega)] at hv
          cases hv
        rw [List.getElem?_set, if_pos rfl, if_pos hlt] at hv
        have hs : clientwrSlot tls now rq = some rq' := Option.some.inj hv
        obtain ⟨hb1, hb2, hb3⟩ := hb j rq hq
        rcases clientwrSlot_cases tls now rq rq' hs with rfl | ⟨hne, heq⟩
        · exact ⟨hb1, hb2, hb3⟩
        · subst heq
          refine ⟨?_, by simpa using hb2, ?_⟩
          · show rq.tries + 1 ≤ maxTries tls rq
            omega
          · intro _
            show rq.created < now +
              (if rq.buf.getD 0 0 == RAD_Status_Server || tls
               then REQUEST_EXPIRY else REQUEST_EXPIRY / REQUEST_RETRIES)
            have hE : 1 ≤ (if rq.buf.getD 0 0 == RAD_Status_Server || tls
                then REQUEST_EXPIRY else REQUEST_EXPIRY / REQUEST_RETRIES) := by
              unfold REQUEST_EXPIRY REQUEST_RETRIES
              split <;> omega
            omega
      · rw [List.getElem?_set, if_neg (fun h => hj h.symm)] at hv
        exact hb j rq' hv

theorem slotBounds_receive (tls : Bool) (t : ReqTable) (i now : Nat)
    (hb : slotBounds tls now t) : slotBounds tls now (markReceived t i) := by
  unfold markReceived
  cases hq : t.requests[i]? with
  | none => exact hb
  | some o =>
    cases o with
    | none => exact hb
    | some rq =>
      intro j rq' hv
      by_cases hj : j = i
      · subst hj
        have hlt : j < t.requests.length := by
          by_contra hc
          rw [List.getElem?_set, if_pos rfl, if_neg (by omega)] at hv
          cases hv
        rw [List.getElem?_set, if_pos rfl, if_pos hlt] at hv
        have hs : (some { rq with received := true } : Option Req) = some rq' :=
          Option.some.inj hv
        have : ({ rq with received := true } : Req) = rq' := Option.some.inj hs
        rw [← this]
        obtain ⟨hb1, hb2, hb3⟩ := hb j rq hq
        exact ⟨hb1, hb2, hb3⟩
      · rw [List.getElem?_set, if_neg (fun h => hj h.symm)] at hv
        exact hb j rq' hv

theorem slotBounds_clientGone (tls : Bool) (t : ReqTable) (c0 now : Nat)
    (hb : slotBounds tls now t) : slotBounds tls now (removeclientrqs t c0) := by
  unfold removeclientrqs
  intro j rq' hv
  simp only [List.getElem?_map] at hv
  cases hq : t.requests[j]? with
  | none => rw [hq] at hv; cases hv
  | some o =>
    rw [hq] at hv
    cases o with
    | none => cases hv
    | some rq =>
      simp only [Option.map_some'] at hv
      have heq := Option.some.inj (Option.some.inj hv)
      obtain ⟨hb1, hb2, hb3⟩ := hb j rq hq
      by_cases hc : rq.rqFrom = some c0
      · rw [if_pos (by simp [hc])] at heq
        rw [← heq]
        exact ⟨hb1, hb2, hb3⟩
      · rw [if_neg (by simp [hc])] at heq
        rw [← heq]
        exact ⟨hb1, hb2, hb3⟩

/-- C8 (amended): in every reachable state, every in-use slot has
`tries ≤ max_tries` (1 for TLS upstreams and Status-Server probes,
`REQUEST_RETRIES` for UDP), its creation time is in the past, and — once the
writer has transmitted it at least once (`tries ≥ 1`) — its expiry lies
strictly after its creation.  A freshly enqueued, not yet transmitted slot
has `tries = 0` and `expiry = 0`. -/
theorem slot_retry_bounds (hmac : List Nat → List Nat → List Nat)
    (secret : List Nat) (tls : Bool) (s : PSt)
    (hre : Reachable hmac secret tls s) :
    ∀ (i : Nat) (rq : Req), s.table.requests[i]? = some (some rq) →
      rq.tries ≤ maxTries tls rq ∧ rq.created ≤ s.now ∧
      (1 ≤ rq.tries → rq.created < rq.expiry) := by
  induction hre with
  | init =>
    intro i rq hv
    exact absurd hv (init_no_inuse i rq)
  | step _ hstep ih =>
    cases hstep with
    | enqueue client id buf =>
      rename_i s0 _
      show slotBounds tls s0.now _
      unfold radsrvEnqueue
      cases hdup : rqinqueue s0.table client id with
      | true => simpa using ih
      | false =>
        simp only [Bool.false_eq_true, if_false]
        exact slotBounds_insert tls s0.now s0.table _ hmac secret rfl rfl ih
    | probe buf =>
      rename_i s0 _
      show slotBounds tls s0.now _
      unfold statusProbeEnqueue
      exact slotBounds_insert tls s0.now s0.table _ hmac secret rfl rfl ih
    | writer i =>
      rename_i s0 _
      exact slotBounds_writer tls s0.table i s0.now ih
    | receive i =>
      rename_i s0 _
      exact slotBounds_receive tls s0.table i s0.now ih
    | clientGone c =>
      rename_i s0 _
      exact slotBounds_clientGone tls s0.table c s0.now ih
    | tick d =>
      rename_i s0 _
      intro i rq hv
      obtain ⟨h1, h2, h3⟩ := ih i rq hv
      refine ⟨h1, ?_, h3⟩
      show rq.created ≤ s0.now + d
      omega

/-- C8 counterexample: the claim `tries ∈ [1, max_tries]` and
`expiry > created_at` for every in-use slot fails at the reachable state
right after an Access-Request is enqueued: `udpserverrd` zeroes the request,
`sendrq` stores it untouched, so the in-use slot has `tries = 0` and
`expiry = 0 = created_at` until the writer first transmits it. -/
theorem slot_tries_claim_counterexample :
    Reachable (fun _ _ => List.replicate 16 0) [] false
      ⟨radsrvEnqueue (fun _ _ => List.replicate 16 0) []
        ⟨List.replicate MAX_REQUESTS none, 0⟩ 3 7
        ([1, 0, 0, 20] ++ List.replicate 16 0) 0, 0⟩ ∧
    ((radsrvEnqueue (fun _ _ => List.replicate 16 0) []
        ⟨List.replicate MAX_REQUESTS none, 0⟩ 3 7
        ([1, 0, 0, 20] ++ List.replicate 16 0) 0).requests[0]?.map
      (Option.map fun rq => (rq.tries, rq.expiry, rq.created))) =
      some (some (0, 0, 0)) := by
  constructor
  · exact Reachable.step Reachable.init (Step.enqueue _ 3 7 _)
  · decide

/-- Witness for C8 at the same concrete reachable state and slot. -/
theorem slot_retry_bounds_witness :
    (0 : Nat) ≤ maxTries false
      { buf := [1, 0, 0, 20] ++ List.replicate 16 0, origid := 7,
        rqFrom := some 3, received := false, tries := 0, expiry := 0,
        created := 0 } ∧ (0 : Nat) ≤ 0 ∧
    ((1 : Nat) ≤ 0 → (0 : Nat) < 0) := by
  have h := slot_retry_bounds (fun _ _ => List.replicate 16 0) [] false
    ⟨radsrvEnqueue (fun _ _ => List.replicate 16 0) []
      ⟨List.replicate MAX_REQUESTS none, 0⟩ 3 7
      ([1, 0, 0, 20] ++ List.replicate 16 0) 0, 0⟩
    (Reachable.step Reachable.init (Step.enqueue _ 3 7 _)) 0
    { buf := [1, 0, 0, 20] ++ List.replicate 16 0, origid := 7,
      rqFrom := some 3, received := false, tries := 0, expiry := 0,
      created := 0 } (by decide)
  exact h

/-! ## Realm failover selection (`realm2server`, radsecproxy.c:1693)

A realm's candidate is picked in one pass over its server list with two
accumulators: `first` (the first listed server) and `best` (the best
connected server with a positive `loststatsrv` seen so far); a connected
server with `loststatsrv == 0` is returned immediately; servers with
`connectionok == false` are skipped entirely. -/

structure Server where
  name : Nat
  connectionok : Bool
  loststatsrv : Nat
  deriving DecidableEq, Repr

/-- The loop of `realm2server`, `best` threaded through. -/
def realm2serverAux : List Server → Option Server → Option Server
  | [], best => best
  | srv :: rest, best =>
    if !srv.connectionok then realm2serverAux rest best
    else if srv.loststatsrv == 0 then some srv
    else match best with
      | none => realm2serverAux rest (some srv)
      | some b => realm2serverAux rest
          (if srv.loststatsrv < b.loststatsrv then some srv else some b)

/-- `realm2server`: `return best ? best : first`. -/
def realm2server (srvs : List Server) : Option Server :=
  match realm2serverAux srvs none with
  | some b => some b
  | none => srvs.head?

theorem realm2serverAux_found (srvs : List Server) : ∀ best : Option Server,
    (∃ s ∈ srvs, s.connectionok = true ∧ s.loststatsrv = 0) →
    ∃ r, realm2serverAux srvs best = some r ∧ r ∈ srvs ∧
      r.connectionok = true ∧ r.loststatsrv = 0 := by
  induction srvs with
  | nil => rintro best ⟨s, hs, _⟩; cases hs
  | cons srv rest ih =>
    rintro best ⟨s, hs, hok, hlost⟩
    by_cases hc : srv.connectionok = true
    · by_cases hz : srv.loststatsrv = 0
      · refine ⟨srv, ?_, List.mem_cons_self _ _, hc, hz⟩
        simp [realm2serverAux, hc, hz]
      · have hsrest : s ∈ rest := by
          rcases List.mem_cons.mp hs with rfl | h
          · exact absurd hlost hz
          · exact h
        obtain ⟨r, hr1, hr2, hr3, hr4⟩ := ih
          (match best with
            | none => some srv
            | some b => if srv.loststatsrv < b.loststatsrv then some srv else some b)
          ⟨s, hsrest, hok, hlost⟩
        refine ⟨r, ?_, List.mem_cons_of_mem _ hr2, hr3, hr4⟩
        cases best with
        | none => simpa [realm2serverAux, hc, hz] using hr1
        | some b => simpa [realm2serverAux, hc, hz] using hr1
    · have hsrest : s ∈ rest := by
        rcases List.mem_cons.mp hs with rfl | h
        · exact absurd hok hc
        · exact h
      obtain ⟨r, hr1, hr2, hr3, hr4⟩ := ih best ⟨s, hsrest, hok, hlost⟩
      refine ⟨r, ?_, List.mem_cons_of_mem _ hr2, hr3, hr4⟩
      simpa [realm2serverAux, hc] using hr1

theorem realm2serverAux_min_some (srvs : List Server) : ∀ b0 : Server,
    (∀ s ∈ srvs, ¬(s.connectionok = true ∧ s.loststatsrv = 0)) →
    ∃ b, realm2serverAux srvs (some b0) = some b ∧
      (b = b0 ∨ (b ∈ srvs ∧ b.connectionok = true)) ∧
      b.loststatsrv ≤ b0.loststatsrv ∧
      ∀ s ∈ srvs, s.connectionok = true → b.loststatsrv ≤ s.loststatsrv := by
  induction srvs with
  | nil =>
    intro b0 _
    exact ⟨b0, rfl, Or.inl rfl, le_refl _, by intro s hs; cases hs⟩
  | cons srv rest ih =>
    intro b0 hno
    have hnorest : ∀ s ∈ rest, ¬(s.connectionok = true ∧ s.loststatsrv = 0) :=
      fun s hs => hno s (List.mem_cons_of_mem _ hs)
    by_cases hc : srv.connectionok = true
    · have hz : srv.loststatsrv ≠ 0 := fun h => hno srv (List.mem_cons_self _ _) ⟨hc, h⟩
      by_cases hlt : srv.loststatsrv < b0.loststatsrv
      · obtain ⟨b, hb1, hb2, hb3, hb4⟩ := ih srv hnorest
        refine ⟨b, ?_, ?_, by omega, ?_⟩
        · simpa [realm2serverAux, hc, hz, hlt] using hb1
        · rcases hb2 with rfl | ⟨hm, hok⟩
          · exact Or.inr ⟨List.mem_cons_self _ _, hc⟩
          · exact Or.inr ⟨List.mem_cons_of_mem _ hm, hok⟩
        · intro s hs hok
          rcases List.mem_cons.mp hs with rfl | hm
          · exact hb3
          · exact hb4 s hm hok
      · obtain ⟨b, hb1, hb2, hb3, hb4⟩ := ih b0 hnorest
        refine ⟨b, ?_, ?_, hb3, ?_⟩
        · simpa [realm2serverAux, hc, hz, hlt] using hb1
        · rcases hb2 with rfl | ⟨hm, hok⟩
          · exact Or.inl rfl
          · exact Or.inr ⟨List.mem_cons_of_mem _ hm, hok⟩
        · intro s hs hok
          rcases List.mem_cons.mp hs with rfl | hm
          · omega
          · exact hb4 s hm hok
    · obtain ⟨b, hb1, hb2, hb3, hb4⟩ := ih b0 hnorest
      refine ⟨b, ?_, ?_, hb3, ?_⟩
      · simpa [realm2serverAux, hc] using hb1
      · rcases hb2 with rfl | ⟨hm, hok⟩
        · exact Or.inl rfl
        · exact Or.inr ⟨List.mem_cons_of_mem _ hm, hok⟩
      · intro s hs hok
        rcases List.mem_cons.mp hs with rfl | hm
        · rw [hok] at hc; cases hc rfl
        · exact hb4 s hm hok

theorem realm2serverAux_none_of_disconnected (srvs : List Server)
    (h : ∀ s ∈ srvs, s.connectionok = false) :
    realm2serverAux srvs none = none := by
  induction srvs with
  | nil => rfl
  | cons srv rest ih =>
    have hc : srv.connectionok = false := h srv (List.mem_cons_self _ _)
    have := ih (fun s hs => h s (List.mem_cons_of_mem _ hs))
    simpa [realm2serverAux, hc] using this

theorem realm2serverAux_min_none (srvs : List Server)
    (hno : ∀ s ∈ srvs, ¬(s.connectionok = true ∧ s.loststatsrv = 0))
    (hex : ∃ s ∈ srvs, s.connectionok = true) :
    ∃ b, realm2serverAux srvs none = some b ∧ b ∈ srvs ∧ b.connectionok = true ∧
      ∀ s ∈ srvs, s.connectionok = true → b.loststatsrv ≤ s.loststatsrv := by
  induction srvs with
  | nil => obtain ⟨s, hs, _⟩ := hex; cases hs
  | cons srv rest ih =>
    have hnorest : ∀ s ∈ rest, ¬(s.connectionok = true ∧ s.loststatsrv = 0) :=
      fun s hs => hno s (List.mem_cons_of_mem _ hs)
    by_cases hc : srv.connectionok = true
    · have hz : srv.loststatsrv ≠ 0 := fun h => hno srv (List.mem_cons_self _ _) ⟨hc, h⟩
      obtain ⟨b, hb1, hb2, hb3, hb4⟩ := realm2serverAux_min_some rest srv hnorest
      refine ⟨b, ?_, ?_, ?_, ?_⟩
      · simpa [realm2serverAux, hc, hz] using hb1
      · rcases hb2 with rfl | ⟨hm, _⟩
        · exact List.mem_cons_self _ _
        · exact List.mem_cons_of_mem _ hm
      · rcases hb2 with rfl | ⟨_, hok⟩
        · exact hc
        · exact hok
      · intro s hs hok
        rcases List.mem_cons.mp hs with rfl | hm
        · exact hb3
        · exact hb4 s hm hok
    · obtain ⟨s0, hs0, hok0⟩ := hex
      have hs0rest : s0 ∈ rest := by
        rcases List.mem_cons.mp hs0 with rfl | h
        · exact absurd hok0 hc
        · exact h
      obtain ⟨b, hb1, hb2, hb3, hb4⟩ := ih hnorest ⟨s0, hs0rest, hok0⟩
      refine ⟨b, ?_, List.mem_cons_of_mem _ hb2, hb3, ?_⟩
      · simpa [realm2serverAux, hc] using hb1
      · intro s hs hok
        rcases List.mem_cons.mp hs with rfl | hm
        · rw [hok] at hc; cases hc rfl
        · exact hb4 s hm hok

/-! ## Claim C5: `realm2server` failover selection -/

/-- C5 counterexample: with servers `A = (connectionok := false,
loststatsrv := 1)` and `B = (connectionok := true, loststatsrv := 5)` no
server is connected with `loststatsrv = 0`, `A` has the smallest positive
`loststatsrv`, yet `realm2server` returns `B`: disconnected servers are
skipped by the minimum-`loststatsrv` rule, contrary to the claim. -/
theorem realm2server_claim_counterexample :
    (∀ s ∈ [Server.mk 0 false 1, Server.mk 1 true 5],
      ¬(s.connectionok = true ∧ s.loststatsrv = 0)) ∧
    (0 < (Server.mk 0 false 1).loststatsrv ∧
      ∀ s ∈ [Server.mk 0 false 1, Server.mk 1 true 5],
        0 < s.loststatsrv → (Server.mk 0 false 1).loststatsrv ≤ s.loststatsrv) ∧
    realm2server [Server.mk 0 false 1, Server.mk 1 true 5] ≠
      some (Server.mk 0 false 1) := by
  refine ⟨?_, ⟨?_, ?_⟩, ?_⟩ <;> decide

/-- C5 (amended): `realm2server` returns a connected server with
`loststatsrv = 0` when one exists; otherwise, when some server is connected,
a connected one with the smallest `loststatsrv` **among the connected
servers** (disconnected servers are never considered by this rule);
otherwise the first listed server; and `none` exactly when the list is
empty. -/
theorem realm2server_selection (srvs : List Server) :
    ((∃ s ∈ srvs, s.connectionok = true ∧ s.loststatsrv = 0) →
      ∃ r, realm2server srvs = some r ∧ r ∈ srvs ∧
        r.connectionok = true ∧ r.loststatsrv = 0) ∧
    ((∀ s ∈ srvs, ¬(s.connectionok = true ∧ s.loststatsrv = 0)) →
      (∃ s ∈ srvs, s.connectionok = true) →
      ∃ b, realm2server srvs = some b ∧ b ∈ srvs ∧ b.connectionok = true ∧
        0 < b.loststatsrv ∧
        ∀ s ∈ srvs, s.connectionok = true → b.loststatsrv ≤ s.loststatsrv) ∧
    ((∀ s ∈ srvs, s.connectionok = false) → realm2server srvs = srvs.head?) ∧
    (realm2server srvs = none ↔ srvs = []) := by
  refine ⟨?_, ?_, ?_, ?_⟩
  · intro hex
    obtain ⟨r, hr1, hr2, hr3, hr4⟩ := realm2serverAux_found srvs none hex
    exact ⟨r, by simp [realm2server, hr1], hr2, hr3, hr4⟩
  · intro hno hex
    obtain ⟨b, hb1, hb2, hb3, hb4⟩ := realm2serverAux_min_none srvs hno hex
    refine ⟨b, by simp [realm2server, hb1], hb2, hb3, ?_, hb4⟩
    rcases Nat.eq_zero_or_pos b.loststatsrv with hz | hp
    · exact absurd ⟨hb3, hz⟩ (hno b hb2)
    · exact hp
  · intro hdis
    rw [realm2server, realm2serverAux_none_of_disconnected srvs hdis]
  · constructor
    · intro h
      cases hs : srvs with
      | nil => rfl
      | cons srv rest =>
        exfalso
        rw [hs] at h
        unfold realm2server at h
        cases haux : realm2serverAux (srv :: rest) none with
        | some b => rw [haux] at h; cases h
        | none => rw [haux] at h; cases h
    · rintro rfl
      rfl

/-! ## UDP datagram validation (`radudpget`, radsecproxy.c:545)

One pass of the receive loop, for a single datagram: the byte count `cnt`
is the datagram's length; `peerKnown` is the outcome of the
`checkconfaddr`/`find_conf` source-address lookup; `malloc` and client
creation are modelled as succeeding.  On acceptance, `malloc(len)` +
`memcpy(rad, buf, len)` return exactly the declared `len` bytes. -/

def radudpgetValidate (datagram : List Nat) (peerKnown : Bool) :
    Option (List Nat) :=
  if datagram.length < 20 then none
  else if RADLEN datagram < 20 then none
  else if datagram.length < RADLEN datagram then none
  else if !peerKnown then none
  else some (datagram.take (RADLEN datagram))

/-! ## Claim C6: UDP length validation -/

/-- C6 counterexample: a well-formed 20-byte datagram (declared length 20)
from a source address matching no configured peer passes all three length
checks yet is dropped, so exactly the length conditions of the claim do not
decide acceptance. -/
theorem radudpget_claim_counterexample :
    ¬(([1, 0, 0, 20] ++ List.replicate 16 0 : List Nat).length < 20 ∨
      RADLEN ([1, 0, 0, 20] ++ List.replicate 16 0) < 20 ∨
      ([1, 0, 0, 20] ++ List.replicate 16 0 : List Nat).length <
        RADLEN ([1, 0, 0, 20] ++ List.replicate 16 0)) ∧
    radudpgetValidate ([1, 0, 0, 20] ++ List.replicate 16 0) false = none := by
  refine ⟨?_, ?_⟩ <;> decide

/-- C6 (amended): a datagram shorter than 20 bytes, or declaring a length
below 20, or shorter than its declared length, is dropped; otherwise,
provided the source address matches a configured peer, exactly the declared
number of bytes is returned and any trailing bytes are discarded. -/
theorem radudpget_length_validation (d : List Nat) (pk : Bool) :
    ((d.length < 20 ∨ RADLEN d < 20 ∨ d.length < RADLEN d) →
      radudpgetValidate d pk = none) ∧
    (¬(d.length < 20 ∨ RADLEN d < 20 ∨ d.length < RADLEN d) → pk = true →
      radudpgetValidate d pk = some (d.take (RADLEN d)) ∧
      (d.take (RADLEN d)).length = RADLEN d) := by
  constructor
  · intro h
    unfold radudpgetValidate
    rcases Nat.lt_or_ge d.length 20 with h1 | h1
    · rw [if_pos h1]
    · rw [if_neg (by omega)]
      rcases Nat.lt_or_ge (RADLEN d) 20 with h2 | h2
      · rw [if_pos h2]
      · rw [if_neg (by omega)]
        have h3 : d.length < RADLEN d := by
          rcases h with h | h | h <;> omega
        rw [if_pos h3]
  · intro h hpk
    push_neg at h
    obtain ⟨h1, h2, h3⟩ := h
    unfold radudpgetValidate
    rw [if_neg (by omega), if_neg (by omega), if_neg (by omega), hpk]
    refine ⟨rfl, ?_⟩
    simp only [List.length_take]
    omega

/-- Witness for C6 at a 22-byte datagram declaring length 20: accepted with
the two trailing bytes discarded, and dropped when 19 bytes arrive. -/
theorem radudpget_length_validation_witness :
    (radudpgetValidate ([1, 0, 0, 20] ++ List.replicate 16 0 ++ [9, 9]) true =
      some (([1, 0, 0, 20] ++ List.replicate 16 0 ++ [9, 9]).take
        (RADLEN ([1, 0, 0, 20] ++ List.replicate 16 0 ++ [9, 9]))) ∧
      (([1, 0, 0, 20] ++ List.replicate 16 0 ++ [9, 9]).take
        (RADLEN ([1, 0, 0, 20] ++ List.replicate 16 0 ++ [9, 9]))).length =
        RADLEN ([1, 0, 0, 20] ++ List.replicate 16 0 ++ [9, 9])) ∧
    radudpgetValidate (List.replicate 19 0) true = none :=
  ⟨(radudpget_length_validation ([1, 0, 0, 20] ++ List.replicate 16 0 ++ [9, 9])
      true).2 (by decide) rfl,
   (radudpget_length_validation (List.replicate 19 0) true).1 (by decide)⟩

/-- Witness for C5: a single connected, zero-loss server is selected. -/
theorem realm2server_selection_witness :
    ∃ r, realm2server [Server.mk 0 true 0] = some r ∧
      r ∈ [Server.mk 0 true 0] ∧ r.connectionok = true ∧ r.loststatsrv = 0 :=
  (realm2server_selection [Server.mk 0 true 0]).1 ⟨Server.mk 0 true 0, by decide⟩

/-! ## Command line parsing (`getargs`, radsecproxy.c:3160)

`getargs` drives `getopt(argc, argv, "c:d:fpv")` and exits through `debugx`
(radsecproxy's fatal-log helper, which prints and exits with its first
argument) or through the `usage:` label (`exit(1)`).  `getopt` is modelled
with POSIX semantics: options are leading-dash elements processed left to
right, a character listed with `:` takes the rest of its element or the next
element as argument (missing argument yields `?` and thus the usage exit),
`--` ends option processing, and the first non-option element stops the
scan, after which `argc - optind != 0` forces the usage exit. -/

inductive GetargsResult where
  | ok (configfile : Option String) (loglevel : Nat)
      (foreground pretend : Bool)
  | exited (code : Nat)
  deriving DecidableEq, Repr

structure ArgState where
  configfile : Option String
  loglevel : Nat
  foreground : Bool
  pretend : Bool
  deriving DecidableEq, Repr

/-- The `-d` argument check: `strlen(optarg) != 1 || *optarg < '1' ||
*optarg > '4'` is fatal (`debugx(1, ...)`). -/
def checkDebugLevel (st : ArgState) (arg : String) :
    GetargsResult ⊕ ArgState :=
  match arg.data with
  | [ch] =>
    if ch < '1' then Sum.inl (GetargsResult.exited 1)
    else if '4' < ch then Sum.inl (GetargsResult.exited 1)
    else Sum.inr { st with loglevel := ch.toNat - 48 }
  | _ => Sum.inl (GetargsResult.exited 1)

/-- Process the option characters of one `-xyz` element.  Returns either an
exit outcome or the updated state plus how many following elements were
consumed as option arguments. -/
def procElem (rest : List String) : ArgState → List Char →
    GetargsResult ⊕ (ArgState × Nat)
  | st, [] => Sum.inr (st, 0)
  | st, c :: cs =>
    if c = 'c' then
      match cs with
      | [] =>
        match rest with
        | [] => Sum.inl (GetargsResult.exited 1)
        | a :: _ => Sum.inr ({ st with configfile := some a }, 1)
      | _ => Sum.inr ({ st with configfile := some (String.mk cs) }, 0)
    else if c = 'd' then
      match cs with
      | [] =>
        match rest with
        | [] => Sum.inl (GetargsResult.exited 1)
        | a :: _ =>
          match checkDebugLevel st a with
          | Sum.inl r => Sum.inl r
          | Sum.inr st' => Sum.inr (st', 1)
      | _ =>
        match checkDebugLevel st (String.mk cs) with
        | Sum.inl r => Sum.inl r
        | Sum.inr st' => Sum.inr (st', 0)
    else if c = 'f' then procElem rest { st with foreground := true } cs
    else if c = 'p' then procElem rest { st with pretend := true } cs
    else if c = 'v' then Sum.inl (GetargsResult.exited 0)
    else Sum.inl (GetargsResult.exited 1)

/-- The `getopt` loop of `getargs`, followed by the trailing-argument check
`if (!(argc - optind)) return; usage: ... exit(1)`.  Fuel-based recursion:
every iteration consumes at least one argument, so with initial fuel
`args.length` the zero-fuel branch is unreachable (each iteration leaves
`fuel ≥` the remaining argument count). -/
def getargsLoopAux : Nat → ArgState → List String → GetargsResult
  | _, st, [] =>
    GetargsResult.ok st.configfile st.loglevel st.foreground st.pretend
  | 0, _, _ :: _ => GetargsResult.exited 1
  | fuel + 1, st, arg :: rest =>
    if arg = "--" then
      if rest.isEmpty then
        GetargsResult.ok st.configfile st.loglevel st.foreground st.pretend
      else GetargsResult.exited 1
    else
      match arg.data with
      | '-' :: c :: cs =>
        match procElem rest st (c :: cs) with
        | Sum.inl r => r
        | Sum.inr (st', skip) => getargsLoopAux fuel st' (rest.drop skip)
      | _ => GetargsResult.exited 1

/-- `getargs` on the arguments after the program name. -/
def getargs (args : List String) : GetargsResult :=
  getargsLoopAux args.length
    { configfile := none, loglevel := 0, foreground := false, pretend := false }
    args

/-! ## Claim C9: the accepted command line flags -/

/-- C9 counterexample: `-d 5` is rejected with a fatal error (the code
accepts only 1..4), and `-i pidfile` is not in the option string
`"c:d:fpv"`, so it hits the usage exit — both contrary to the claim. -/
theorem getargs_claim_counterexample :
    getargs ["-d", "5"] = GetargsResult.exited 1 ∧
    getargs ["-i", "pidfile"] = GetargsResult.exited 1 := by
  refine ⟨?_, ?_⟩ <;> decide

/-- C9 (amended): the parser accepts exactly `-c configfile`, `-d level`
with level in 1..4, `-f`, `-p` and `-v` (no `-i`); `-v` prints the revision
and exits 0; *every* flag `-x` whose option character is not one of
`c d f p v` (and is not the `--` terminator) exits 1 with the usage line,
as does a trailing non-option argument. -/
theorem getargs_flags (cfg word : String) (ch c : Char)
    (h1 : '1' ≤ ch) (h4 : ch ≤ '4') (hw : ¬ word.data.head? = some '-')
    (hne : ¬ word.data = [])
    (hunk : c ∉ (['c', 'd', 'f', 'p', 'v', '-'] : List Char)) :
    getargs ["-c", cfg] = GetargsResult.ok (some cfg) 0 false false ∧
    getargs ["-d", String.mk [ch]] =
      GetargsResult.ok none (ch.toNat - 48) false false ∧
    getargs ["-f"] = GetargsResult.ok none 0 true false ∧
    getargs ["-p"] = GetargsResult.ok none 0 false true ∧
    getargs ["-v"] = GetargsResult.exited 0 ∧
    getargs ["-f", word] = GetargsResult.exited 1 ∧
    getargs [String.mk ['-', c]] = GetargsResult.exited 1 := by
  have hcs : c ≠ 'c' ∧ c ≠ 'd' ∧ c ≠ 'f' ∧ c ≠ 'p' ∧ c ≠ 'v' ∧ c ≠ '-' := by
    refine ⟨?_, ?_, ?_, ?_, ?_, ?_⟩ <;> (intro h; exact hunk (by simp [h]))
  have hn1 : ¬ ch < '1' := not_lt.mpr h1
  have hn4 : ¬ '4' < ch := not_lt.mpr h4
  have hcd : checkDebugLevel
      { configfile := none, loglevel := 0, foreground := false,
        pretend := false } (String.mk [ch]) =
      Sum.inr { configfile := none, loglevel := ch.toNat - 48,
                foreground := false, pretend := false } := by
    show (if ch < '1' then Sum.inl (GetargsResult.exited 1)
      else if '4' < ch then Sum.inl (GetargsResult.exited 1)
      else Sum.inr ({ configfile := none, loglevel := ch.toNat - 48,
                      foreground := false, pretend := false } : ArgState)) =
      Sum.inr ({ configfile := none, loglevel := ch.toNat - 48,
                 foreground := false, pretend := false } : ArgState)
    rw [if_neg hn1, if_neg hn4]
  refine ⟨rfl, ?_, by decide, by decide, by decide, ?_, ?_⟩
  · simp only [getargs, List.length_cons, List.length_nil, getargsLoopAux,
      procElem, hcd]
    rfl
  · have hwne : word ≠ "--" := by
      intro h
      rw [h] at hw
      exact hw rfl
    have step1 : getargs ["-f", word] =
        getargsLoopAux 1
          { configfile := none, loglevel := 0, foreground := true,
            pretend := false } [word] := rfl
    rw [step1]
    cases hd : word.data with
    | nil => exact absurd hd hne
    | cons c cs =>
      have hc : c ≠ '-' := by
        intro h
        apply hw
        rw [hd, h]
        rfl
      simp only [getargsLoopAux]
      rw [if_neg hwne, hd]
      split
      · rename_i heq
        injection heq with hch _
        exact absurd hch hc
      · rfl
  · have hne2 : String.mk ['-', c] ≠ "--" := by
      intro h
      have hd : ['-', c] = ['-', '-'] := congrArg String.data h
      injection hd with _ ht
      injection ht with hc2 _
      exact hcs.2.2.2.2.2 hc2
    have hpe : procElem []
        { configfile := none, loglevel := 0, foreground := false,
          pretend := false } [c] = Sum.inl (GetargsResult.exited 1) := by
      unfold procElem
      rw [if_neg hcs.1, if_neg hcs.2.1, if_neg hcs.2.2.1,
        if_neg hcs.2.2.2.1, if_neg hcs.2.2.2.2.1]
    have hstep : getargs [String.mk ['-', c]] =
        (match procElem []
            { configfile := none, loglevel := 0, foreground := false,
              pretend := false } [c] with
         | Sum.inl r => r
         | Sum.inr (st', skip) => getargsLoopAux 0 st' (List.drop skip [])) := by
      simp only [getargs, List.length_cons, List.length_nil, getargsLoopAux]
      rw [if_neg hne2]
    rw [hstep, hpe]

/-- Witness for C9 at concrete arguments. -/
theorem getargs_flags_witness :
    getargs ["-c", "radsecproxy.conf"] =
      GetargsResult.ok (some "radsecproxy.conf") 0 false false ∧
    getargs ["-d", String.mk ['2']] =
      GetargsResult.ok none ('2'.toNat - 48) false false ∧
    getargs ["-f"] = GetargsResult.ok none 0 true false ∧
    getargs ["-p"] = GetargsResult.ok none 0 false true ∧
    getargs ["-v"] = GetargsResult.exited 0 ∧
    getargs ["-f", "extra"] = GetargsResult.exited 1 ∧
    getargs [String.mk ['-', 'x']] = GetargsResult.exited 1 :=
  getargs_flags "radsecproxy.conf" "extra" '2' 'x' (by decide) (by decide)
    (by decide) (by decide) (by decide)

/-! ## `radsrv` dispatch (radsecproxy.c:1714-1830)

The part of `radsrv` that runs before any routing decision: code check,
attribute-list validation, Message-Authenticator verification, and the
local answers for Accounting-Request and Status-Server.  An Access-Request
continues into the routing path (`.accessRequest`), the only path that can
ever reach `realm2server`/`sendrq`. -/

/-- `attrvalidate` (radsecproxy.c:1390): walk `type|len|value` records;
`len < 2` or overrunning the remaining length fails; a single trailing byte
is tolerated.  `length` is a C `int`, so it is an `Int` here; the fuel is
an upper bound on the iteration count (each pass consumes ≥ 2 bytes). -/
def attrvalidateAux (buf : List Nat) : Nat → Nat → Int → Bool
  | fuel, off, length =>
    if length > 1 then
      match fuel with
      | 0 => false
      | fuel' + 1 =>
        let alen : Int := buf.getD (off + 1) 0
        if alen < 2 then false
        else if length - alen < 0 then false
        else attrvalidateAux buf fuel' (off + (buf.getD (off + 1) 0)) (length - alen)
    else true

/-- `attrvalidate(buf + off, length)` with absolute offsets. -/
def attrvalidate (buf : List Nat) (off : Nat) (length : Int) : Bool :=
  attrvalidateAux buf length.toNat off length

/-- Modelled from the spec: Access-Accept is RADIUS code 2 (glossary). -/
def RAD_Access_Accept : Nat := 2

/-- `respondaccounting` (radsecproxy.c:1638): copy the 20-byte header,
set code 5 and length 20; the ID byte and authenticator are untouched. -/
def respondaccounting (buf : List Nat) : List Nat :=
  (((buf.take 20).set 0 RAD_Accounting_Response).set 2 0).set 3 20

/-- `respondstatusserver` (radsecproxy.c:1654): same with code 2. -/
def respondstatusserver (buf : List Nat) : List Nat :=
  (((buf.take 20).set 0 RAD_Access_Accept).set 2 0).set 3 20

/-- `radsign` (radsecproxy.c:945): `MD5(packet[0..RADLEN) ++ secret)`
written into the authenticator field, as `sendreply` applies it to every
outbound reply. -/
def radsign (h : List Nat → List Nat) (secret buf : List Nat) : List Nat :=
  writeBytes buf 4 ((h (buf.take (RADLEN buf) ++ secret)).take 16)

/-- The Message-Authenticator step of `radsrv` (radsecproxy.c:1745-1750):
accept when the attribute is absent, otherwise require a 16-byte value
passing `checkmessageauth`. -/
def messageAuthOK (hmac : List Nat → List Nat → List Nat)
    (secret buf : List Nat) : Bool :=
  match attrget buf 20 (RADLEN buf - 20) RAD_Attr_Message_Authenticator with
  | none => true
  | some aoff =>
    buf.getD (aoff + 1) 0 - 2 == 16 &&
      (checkmessageauth hmac secret buf (aoff + 2)).1

inductive RadsrvAction where
  | drop
  | respondAcc (resp : List Nat)
  | respondStatus (resp : List Nat)
  | accessRequest
  deriving DecidableEq, Repr

/-- The dispatch of `radsrv` up to the routing decision. -/
def radsrvDispatch (hmac : List Nat → List Nat → List Nat)
    (secret buf : List Nat) : RadsrvAction :=
  let code := buf.getD 0 0
  if code ≠ RAD_Access_Request ∧ code ≠ RAD_Status_Server ∧
      code ≠ RAD_Accounting_Request then .drop
  else if !attrvalidate buf 20 ((RADLEN buf : Int) - 20) then .drop
  else if !messageAuthOK hmac secret buf then .drop
  else if code ≠ RAD_Access_Request then
    if code = RAD_Accounting_Request then .respondAcc (respondaccounting buf)
    else .respondStatus (respondstatusserver buf)
  else .accessRequest

/-! ## Claim C10: Accounting-Requests are answered locally -/

/-- C10: a valid Accounting-Request is answered by the proxy itself: the
dispatch yields `respondAcc` — never `.accessRequest`, the only action that
reaches realm lookup and `sendrq`, so no request-table slot is taken and
nothing is forwarded, whatever the realm configuration — and the reply,
also after `sendreply`'s `radsign` under the client's secret, is exactly
20 bytes with code 5 and the request's ID byte. -/
theorem accounting_answered_locally (hmac : List Nat → List Nat → List Nat)
    (secret csecret buf : List Nat)
    (hcode : buf.getD 0 0 = RAD_Accounting_Request)
    (hblen : 20 ≤ buf.length)
    (hval : attrvalidate buf 20 ((RADLEN buf : Int) - 20) = true)
    (hmauth : messageAuthOK hmac secret buf = true) :
    radsrvDispatch hmac secret buf =
      RadsrvAction.respondAcc (respondaccounting buf) ∧
    (respondaccounting buf).length = 20 ∧
    (respondaccounting buf)[0]? = some RAD_Accounting_Response ∧
    (respondaccounting buf)[1]? = buf[1]? ∧
    RADLEN (respondaccounting buf) = 20 ∧
    (radsign md5 csecret (respondaccounting buf)).length = 20 ∧
    (radsign md5 csecret (respondaccounting buf))[0]? =
      some RAD_Accounting_Response ∧
    (radsign md5 csecret (respondaccounting buf))[1]? = buf[1]? := by
  have hlen20 : (buf.take 20).length = 20 := by
    simp [List.length_take]
    omega
  have hrlen : (respondaccounting buf).length = 20 := by
    simp [respondaccounting, hlen20]
  have h0 : (respondaccounting buf)[0]? = some RAD_Accounting_Response := by
    unfold respondaccounting
    rw [List.getElem?_set_ne (by omega), List.getElem?_set_ne (by omega)]
    exact getElem?_set_self _ _ _ (by omega)
  have h1 : (respondaccounting buf)[1]? = buf[1]? := by
    unfold respondaccounting
    rw [List.getElem?_set_ne (by omega), List.getElem?_set_ne (by omega),
      List.getElem?_set_ne (by omega), List.getElem?_take, if_pos (by omega)]
  have h2 : (respondaccounting buf)[2]? = some 0 := by
    unfold respondaccounting
    rw [List.getElem?_set_ne (by omega)]
    exact getElem?_set_self _ _ _ (by simp [hlen20])
  have h3 : (respondaccounting buf)[3]? = some 20 := by
    unfold respondaccounting
    exact getElem?_set_self _ _ _ (by simp [hlen20])
  have hradlen : RADLEN (respondaccounting buf) = 20 := by
    unfold RADLEN
    have e2 : (respondaccounting buf).getD 2 0 = 0 := by
      simp [List.getD, h2]
    have e3 : (respondaccounting buf).getD 3 0 = 20 := by
      simp [List.getD, h3]
    rw [e2, e3]
  have hmac16 : ((md5 ((respondaccounting buf).take
      (RADLEN (respondaccounting buf)) ++ csecret)).take 16).length ≤ 16 := by
    simp [List.length_take]
  have hslen : (radsign md5 csecret (respondaccounting buf)).length = 20 := by
    unfold radsign writeBytes
    simp only [List.length_append, List.length_take, List.length_drop, hrlen]
    have : ((md5 ((respondaccounting buf).take
        (RADLEN (respondaccounting buf)) ++ csecret)).take 16).length = 16 := by
      have : (md5 ((respondaccounting buf).take
          (RADLEN (respondaccounting buf)) ++ csecret)).length = 16 := by
        simp [md5, le4]
      simp [List.length_take, this]
    omega
  have hs0 : (radsign md5 csecret (respondaccounting buf))[0]? =
      some RAD_Accounting_Response := by
    unfold radsign
    rw [writeBytes_getElem?_lt _ _ _ _ (by omega) (by omega)]
    exact h0
  have hs1 : (radsign md5 csecret (respondaccounting buf))[1]? = buf[1]? := by
    unfold radsign
    rw [writeBytes_getElem?_lt _ _ _ _ (by omega) (by omega)]
    exact h1
  refine ⟨?_, hrlen, h0, h1, hradlen, hslen, hs0, hs1⟩
  unfold radsrvDispatch
  rw [hcode]
  rw [if_neg (by simp [RAD_Accounting_Request])]
  rw [hval]
  rw [hmauth]
  simp [RAD_Access_Request, RAD_Accounting_Request]

/-- Witness for C10: a bare 20-byte Accounting-Request. -/
theorem accounting_answered_locally_witness :
    radsrvDispatch (fun _ _ => List.replicate 16 0) []
      ([4, 9, 0, 20] ++ List.replicate 16 7) =
      RadsrvAction.respondAcc
        (respondaccounting ([4, 9, 0, 20] ++ List.replicate 16 7)) ∧
    (respondaccounting ([4, 9, 0, 20] ++ List.replicate 16 7)).length = 20 ∧
    (respondaccounting ([4, 9, 0, 20] ++ List.replicate 16 7))[0]? =
      some RAD_Accounting_Response ∧
    (respondaccounting ([4, 9, 0, 20] ++ List.replicate 16 7))[1]? =
      ([4, 9, 0, 20] ++ List.replicate 16 7 : List Nat)[1]? ∧
    RADLEN (respondaccounting ([4, 9, 0, 20] ++ List.replicate 16 7)) = 20 ∧
    (radsign md5 [99] (respondaccounting
      ([4, 9, 0, 20] ++ List.replicate 16 7))).length = 20 ∧
    (radsign md5 [99] (respondaccounting
      ([4, 9, 0, 20] ++ List.replicate 16 7)))[0]? =
      some RAD_Accounting_Response ∧
    (radsign md5 [99] (respondaccounting
      ([4, 9, 0, 20] ++ List.replicate 16 7)))[1]? =
      ([4, 9, 0, 20] ++ List.replicate 16 7 : List Nat)[1]? :=
  accounting_answered_locally (fun _ _ => List.replicate 16 0) [] [99]
    ([4, 9, 0, 20] ++ List.replicate 16 7) (by decide) (by decide)
    (by decide) (by decide)

/-! ## TLS certificate identity (`subjectaltnameaddr`, `cnregexp`,
`verifyconfcert`, radsecproxy.c:619-805)

A certificate is its decoded subjectAltName list (`none` when the extension
is absent or fails to decode) plus its subject CommonName entries.

`subjectaltnameaddr` carries the bug at radsecproxy.c:645: the comparison is
`memcmp(v, &addr, l)` — `addr` being the `struct in6_addr *` parameter, so
the certificate bytes are compared against the first `l` bytes of the
*pointer variable's own storage*, not against the address it points to.
Those unspecified bytes are the parameter `ptrBytes`; the parsed address is
never (correctly) read.  `inet_pton` is libc, abstracted as the parameters
`p4`/`p6`. -/

inductive GeneralName where
  | ipadd (bytes : List Nat)
  | dns (s : String)
  | uri (s : String)
  | other
  deriving DecidableEq, Repr

structure Cert where
  sanEntries : Option (List GeneralName)
  commonNames : List String
  deriving DecidableEq, Repr

/-- `AF_INET` under Linux. -/
def AF_INET : Nat := 2

/-- `AF_INET6` under Linux. -/
def AF_INET6 : Nat := 10

/-- The entry loop of `subjectaltnameaddr`: `r` starts 0, becomes −1 on the
first iPAddress entry, 1 when the (buggy) comparison matches. -/
def subjectaltnameaddrLoop (family : Nat) (ptrBytes : List Nat) :
    List GeneralName → Int → Int
  | [], r => r
  | gn :: rest, r =>
    match gn with
    | GeneralName.ipadd v =>
      if ((family == AF_INET && v.length == 4) ||
          (family == AF_INET6 && v.length == 16)) &&
          v == ptrBytes.take v.length
      then 1
      else subjectaltnameaddrLoop family ptrBytes rest (-1)
    | _ => subjectaltnameaddrLoop family ptrBytes rest r

/-- `subjectaltnameaddr` (radsecproxy.c:619): 0 without a decodable
subjectAltName, else the loop from `r = 0`. -/
def subjectaltnameaddr (ptrBytes : List Nat) (cert : Cert) (family : Nat) :
    Int :=
  match cert.sanEntries with
  | none => 0
  | some entries => subjectaltnameaddrLoop family ptrBytes entries 0

/-- ASCII lower-casing, the effect of `strncasecmp`'s fold. -/
def charLower (c : Char) : Char :=
  if 'A' ≤ c ∧ c ≤ 'Z' then Char.ofNat (c.toNat + 32) else c

/-- Case-insensitive string equality. -/
def strCaseEq (a b : String) : Bool :=
  a.data.map charLower == b.data.map charLower

/-- The exact branch of `cnregexp` (radsecproxy.c:654): 1 iff some CN has
the host's length and matches it case-insensitively (`strncasecmp`). -/
def cnregexp (cert : Cert) (exact : String) : Int :=
  if cert.commonNames.any
      (fun v => v.length == exact.length && strCaseEq v exact)
  then 1 else 0

/-- The regex branch of `cnregexp` (`exact == NULL`). -/
def cnregexpRegex (cert : Cert) (regex : String → Bool) : Int :=
  if cert.commonNames.any regex then 1 else 0

/-- `subjectaltnameregexp` (radsecproxy.c:694) for GEN_DNS with an exact
host: `r` is set to −1 on *every* dNSName entry (the assignment precedes
the `l <= 0` check, so an empty entry also forces −1), and becomes 1 when
`memcmp(v, exact, l)` matches — the first `l` bytes of `exact`, i.e. a
prefix comparison. -/
def subjectaltnamednsLoop (host : String) : List GeneralName → Int → Int
  | [], r => r
  | gn :: rest, _r =>
    match gn with
    | GeneralName.dns v =>
      if v.data = [] then subjectaltnamednsLoop host rest (-1)
      else if v.data = host.data.take v.data.length then 1
      else subjectaltnamednsLoop host rest (-1)
    | _ => subjectaltnamednsLoop host rest _r

def subjectaltnamedns (cert : Cert) (host : String) : Int :=
  match cert.sanEntries with
  | none => 0
  | some entries => subjectaltnamednsLoop host entries 0

/-- `subjectaltnameregexp` for GEN_URI with a regex; as with dNSName,
`r` is set to −1 on every URI entry before the `l <= 0` check. -/
def subjectaltnameuriLoop (regex : String → Bool) : List GeneralName → Int → Int
  | [], r => r
  | gn :: rest, _r =>
    match gn with
    | GeneralName.uri v =>
      if v.data = [] then subjectaltnameuriLoop regex rest (-1)
      else if regex v then 1
      else subjectaltnameuriLoop regex rest (-1)
    | _ => subjectaltnameuriLoop regex rest _r

def subjectaltnameuri (cert : Cert) (regex : String → Bool) : Int :=
  match cert.sanEntries with
  | none => 0
  | some entries => subjectaltnameuriLoop regex entries 0

structure ClsrvConf where
  host : String
  prefixlen : Nat
  certcnregex : Option (String → Bool)
  certuriregex : Option (String → Bool)

/-- `verifyconfcert` (radsecproxy.c:764). -/
def verifyconfcert (p4 p6 : String → Option (List Nat)) (ptrBytes : List Nat)
    (cert : Cert) (conf : ClsrvConf) : Bool :=
  let hostCheck : Bool :=
    if conf.prefixlen == 255 then
      let type : Nat :=
        match p4 conf.host with
        | some _ => AF_INET
        | none =>
          match p6 conf.host with
          | some _ => AF_INET6
          | none => 0
      let r : Int :=
        if type ≠ 0 then subjectaltnameaddr ptrBytes cert type
        else subjectaltnamedns cert conf.host
      if r ≠ 0 then decide (0 < r)
      else cnregexp cert conf.host ≠ 0
    else true
  hostCheck &&
    (match conf.certcnregex with
     | some regex => decide (1 ≤ cnregexpRegex cert regex)
     | none => true) &&
    (match conf.certuriregex with
     | some regex => decide (1 ≤ subjectaltnameuri cert regex)
     | none => true)

/-! ## Claim C4: SAN iPAddress binding for IP-literal hosts -/

/-- C4 counterexample: for the configured IPv4 literal `"1.2.3.4"`, a
certificate with no subjectAltName at all, whose CN is the string
`"1.2.3.4"`, is accepted: `subjectaltnameaddr` returns 0 and
`verifyconfcert` falls back to the CN comparison — the claim's
"only if the certificate carries an iPAddress entry equal to the address"
is violated. -/
theorem verifyconfcert_claim_counterexample :
    verifyconfcert (fun _ => some [1, 2, 3, 4]) (fun _ => none) [0, 0, 0, 0]
      ⟨none, ["1.2.3.4"]⟩ ⟨"1.2.3.4", 255, none, none⟩ = true ∧
    (⟨none, ["1.2.3.4"]⟩ : Cert).sanEntries = none := by
  refine ⟨?_, rfl⟩
  decide

theorem subjectaltnameaddrLoop_ne_zero (family : Nat) (ptr : List Nat)
    (l : List GeneralName) : ∀ r0 : Int, r0 ≠ 0 →
    subjectaltnameaddrLoop family ptr l r0 ≠ 0 := by
  induction l with
  | nil => intro r0 h; exact h
  | cons gn rest ih =>
    intro r0 h
    cases gn with
    | ipadd v =>
      simp only [subjectaltnameaddrLoop]
      split
      · omega
      · exact ih (-1) (by omega)
    | dns s => exact ih r0 h
    | uri s => exact ih r0 h
    | other => exact ih r0 h

theorem subjectaltnameaddrLoop_eq_one_iff (family : Nat) (ptr : List Nat)
    (l : List GeneralName) : ∀ r0 : Int, r0 ≠ 1 →
    (subjectaltnameaddrLoop family ptr l r0 = 1 ↔
      ∃ v, GeneralName.ipadd v ∈ l ∧
        ((family = AF_INET ∧ v.length = 4) ∨
          (family = AF_INET6 ∧ v.length = 16)) ∧
        v = ptr.take v.length) := by
  induction l with
  | nil =>
    intro r0 h
    simp only [subjectaltnameaddrLoop]
    constructor
    · intro h1; exact absurd h1 h
    · rintro ⟨v, hv, _⟩; cases hv
  | cons gn rest ih =>
    intro r0 h
    cases gn with
    | ipadd v =>
      simp only [subjectaltnameaddrLoop]
      split
      · rename_i hcond
        simp only [Bool.and_eq_true, Bool.or_eq_true, Bool.and_eq_true,
          beq_iff_eq] at hcond
        constructor
        · intro _
          exact ⟨v, List.mem_cons_self _ _, hcond.1, hcond.2⟩
        · intro _; rfl
      · rename_i hcond
        rw [ih (-1) (by omega)]
        constructor
        · rintro ⟨w, hw, hp1, hp2⟩
          exact ⟨w, List.mem_cons_of_mem _ hw, hp1, hp2⟩
        · rintro ⟨w, hw, hp1, hp2⟩
          rcases List.mem_cons.mp hw with heq | hm
          · exfalso
            cases heq
            apply hcond
            simp only [Bool.and_eq_true, Bool.or_eq_true, Bool.and_eq_true,
              beq_iff_eq]
            exact ⟨hp1, hp2⟩
          · exact ⟨w, hm, hp1, hp2⟩
    | dns s =>
      simp only [subjectaltnameaddrLoop]
      rw [ih r0 h]
      constructor
      · rintro ⟨w, hw, hp⟩; exact ⟨w, List.mem_cons_of_mem _ hw, hp⟩
      · rintro ⟨w, hw, hp⟩
        rcases List.mem_cons.mp hw with heq | hm
        · cases heq
        · exact ⟨w, hm, hp⟩
    | uri s =>
      simp only [subjectaltnameaddrLoop]
      rw [ih r0 h]
      constructor
      · rintro ⟨w, hw, hp⟩; exact ⟨w, List.mem_cons_of_mem _ hw, hp⟩
      · rintro ⟨w, hw, hp⟩
        rcases List.mem_cons.mp hw with heq | hm
        · cases heq
        · exact ⟨w, hm, hp⟩
    | other =>
      simp only [subjectaltnameaddrLoop]
      rw [ih r0 h]
      constructor
      · rintro ⟨w, hw, hp⟩; exact ⟨w, List.mem_cons_of_mem _ hw, hp⟩
      · rintro ⟨w, hw, hp⟩
        rcases List.mem_cons.mp hw with heq | hm
        · cases heq
        · exact ⟨w, hm, hp⟩

theorem subjectaltnameaddrLoop_eq_zero_iff (family : Nat) (ptr : List Nat)
    (l : List GeneralName) :
    (subjectaltnameaddrLoop family ptr l 0 = 0 ↔
      ∀ v, GeneralName.ipadd v ∉ l) := by
  induction l with
  | nil =>
    simp only [subjectaltnameaddrLoop]
    exact ⟨fun _ v hv => absurd hv (List.not_mem_nil _), fun _ => trivial⟩
  | cons gn rest ih =>
    cases gn with
    | ipadd v =>
      simp only [subjectaltnameaddrLoop]
      constructor
      · intro h0
        split at h0
        · omega
        · exact absurd h0 (subjectaltnameaddrLoop_ne_zero family ptr rest (-1)
            (by omega))
      · intro hno
        exact absurd (List.mem_cons_self _ _) (hno v)
    | dns s =>
      simp only [subjectaltnameaddrLoop]
      rw [ih]
      constructor
      · intro h w hw
        rcases List.mem_cons.mp hw with heq | hm
        · cases heq
        · exact h w hm
      · intro h w hw
        exact h w (List.mem_cons_of_mem _ hw)
    | uri s =>
      simp only [subjectaltnameaddrLoop]
      rw [ih]
      constructor
      · intro h w hw
        rcases List.mem_cons.mp hw with heq | hm
        · cases heq
        · exact h w hm
      · intro h w hw
        exact h w (List.mem_cons_of_mem _ hw)
    | other =>
      simp only [subjectaltnameaddrLoop]
      rw [ih]
      constructor
      · intro h w hw
        rcases List.mem_cons.mp hw with heq | hm
        · cases heq
        · exact h w hm
      · intro h w hw
        exact h w (List.mem_cons_of_mem _ hw)

theorem subjectaltnameaddrLoop_values (family : Nat) (ptr : List Nat)
    (l : List GeneralName) : ∀ r0 : Int,
    subjectaltnameaddrLoop family ptr l r0 = r0 ∨
    subjectaltnameaddrLoop family ptr l r0 = 1 ∨
    subjectaltnameaddrLoop family ptr l r0 = -1 := by
  induction l with
  | nil => intro r0; exact Or.inl rfl
  | cons gn rest ih =>
    intro r0
    cases gn with
    | ipadd v =>
      simp only [subjectaltnameaddrLoop]
      split
      · exact Or.inr (Or.inl rfl)
      · rcases ih (-1) with h | h | h
        · exact Or.inr (Or.inr h)
        · exact Or.inr (Or.inl h)
        · exact Or.inr (Or.inr h)
    | dns s => exact ih r0
    | uri s => exact ih r0
    | other => exact ih r0

/-- The amended C4 acceptance condition, following the corrected claim's
words: either the certificate carries an iPAddress entry of the family's
length (`len` = 4 for IPv4, 16 for IPv6) whose bytes equal the first `len`
bytes of the in-memory representation of the address pointer (`ptr`), or it
carries no iPAddress entry at all and some subject CN equals the host
literal case-insensitively.  The parsed address does not occur. -/
def ipAcceptSpec (ptr : List Nat) (cert : Cert) (host : String) (len : Nat) :
    Prop :=
  (∃ entries, cert.sanEntries = some entries ∧
    ∃ v, GeneralName.ipadd v ∈ entries ∧ v.length = len ∧
      v = ptr.take v.length) ∨
  ((∀ entries, cert.sanEntries = some entries →
     ∀ v, GeneralName.ipadd v ∉ entries) ∧
   ∃ cn ∈ cert.commonNames,
     cn.length = host.length ∧ strCaseEq cn host = true)

/-- The host-identity part of `verifyconfcert` for an IP family, without the
optional regex checks: the characterization behind both address families. -/
theorem ipadd_accept_iff (ptr : List Nat) (cert : Cert) (host : String)
    (fam len : Nat)
    (hfl : (fam = AF_INET ∧ len = 4) ∨ (fam = AF_INET6 ∧ len = 16)) :
    ((if subjectaltnameaddr ptr cert fam ≠ 0
      then decide (0 < subjectaltnameaddr ptr cert fam)
      else decide (cnregexp cert host ≠ 0)) = true ↔
     ipAcceptSpec ptr cert host len) := by
  have hcn : (cnregexp cert host ≠ 0) ↔
      ∃ cn ∈ cert.commonNames,
        cn.length = host.length ∧ strCaseEq cn host = true := by
    constructor
    · intro hne
      by_contra hnex
      have hfalse : cert.commonNames.any
          (fun v => v.length == host.length && strCaseEq v host) = false := by
        rw [List.any_eq_false]
        intro x hx hpx
        simp only [Bool.and_eq_true, beq_iff_eq] at hpx
        exact hnex ⟨x, hx, hpx.1, hpx.2⟩
      unfold cnregexp at hne
      rw [hfalse] at hne
      simp at hne
    · rintro ⟨cn, hm, hl, hsq⟩
      have htrue : cert.commonNames.any
          (fun v => v.length == host.length && strCaseEq v host) = true :=
        List.any_eq_true.mpr ⟨cn, hm, by simp [hl, hsq]⟩
      unfold cnregexp
      rw [htrue]
      simp
  unfold ipAcceptSpec
  cases hs : cert.sanEntries with
  | none =>
    have hr : subjectaltnameaddr ptr cert fam = 0 := by
      unfold subjectaltnameaddr
      rw [hs]
    rw [hr]
    simp only [ne_eq, not_true_eq_false, if_false, decide_eq_true_eq]
    constructor
    · intro h
      exact Or.inr ⟨fun entries he => (nomatch he), hcn.mp h⟩
    · rintro (⟨entries, he, _⟩ | ⟨_, hex⟩)
      · cases he
      · exact hcn.mpr hex
  | some entries =>
    have hr : subjectaltnameaddr ptr cert fam =
        subjectaltnameaddrLoop fam ptr entries 0 := by
      unfold subjectaltnameaddr
      rw [hs]
    rw [hr]
    have hone : subjectaltnameaddrLoop fam ptr entries 0 = 1 ↔
        ∃ v, GeneralName.ipadd v ∈ entries ∧ v.length = len ∧
          v = ptr.take v.length := by
      rw [subjectaltnameaddrLoop_eq_one_iff fam ptr entries 0 (by omega)]
      constructor
      · rintro ⟨v, hm, hf, hv⟩
        refine ⟨v, hm, ?_, hv⟩
        rcases hfl with ⟨rfl, rfl⟩ | ⟨rfl, rfl⟩
        · rcases hf with ⟨_, h4⟩ | ⟨hff, _⟩
          · exact h4
          · exact absurd hff (by decide)
        · rcases hf with ⟨hff, _⟩ | ⟨_, h16⟩
          · exact absurd hff (by decide)
          · exact h16
      · rintro ⟨v, hm, hlen, hv⟩
        refine ⟨v, hm, ?_, hv⟩
        rcases hfl with ⟨rfl, rfl⟩ | ⟨rfl, rfl⟩
        · exact Or.inl ⟨rfl, hlen⟩
        · exact Or.inr ⟨rfl, hlen⟩
    have hzero := subjectaltnameaddrLoop_eq_zero_iff fam ptr entries
    rcases subjectaltnameaddrLoop_values fam ptr entries 0 with h0 | h1 | hm1
    · rw [h0]
      simp only [ne_eq, not_true_eq_false, if_false, decide_eq_true_eq]
      have hno : ∀ v, GeneralName.ipadd v ∉ entries := hzero.mp h0
      constructor
      · intro h
        refine Or.inr ⟨fun e he => ?_, hcn.mp h⟩
        cases he
        exact hno
      · rintro (⟨e, he, v, hv, _⟩ | ⟨_, hex⟩)
        · cases he
          exact absurd hv (hno v)
        · exact hcn.mpr hex
    · rw [h1]
      simp only [ne_eq, if_pos (by omega : ¬ (1 : Int) = 0),
        decide_eq_true_eq]
      constructor
      · intro _
        exact Or.inl ⟨entries, rfl, hone.mp h1⟩
      · intro _
        omega
    · rw [hm1]
      simp only [ne_eq, if_pos (by omega : ¬ (-1 : Int) = 0),
        decide_eq_true_eq]
      constructor
      · intro h
        omega
      · rintro (⟨e, he, hex⟩ | ⟨hnone, _⟩)
        · cases he
          exfalso
          have := hone.mpr hex
          omega
        · exfalso
          have hno := hnone entries rfl
          have := hzero.mpr hno
          omega

/-- C4 (amended): for a configured IPv4 or IPv6 literal host,
`verifyconfcert` accepts exactly per `ipAcceptSpec` (with the family's
entry length, 4 or 16) when no extra certificate regexes are configured,
and — with arbitrary `certcnregex`/`certuriregex` — accepts *only if*
`ipAcceptSpec` holds: i.e. only when the certificate carries an iPAddress
entry whose bytes equal the first bytes of the in-memory representation of
the address pointer (`ptr`, unrelated to the configured address — the
`memcmp(v, &addr, l)` bug), or carries no iPAddress entry and a CN equals
the host literal case-insensitively.  The parsed address `a` never matters. -/
theorem verifyconfcert_ip_literal (p4 p6 : String → Option (List Nat))
    (ptr : List Nat) (cert : Cert) (host : String)
    (ccn curi : Option (String → Bool)) :
    (∀ a, p4 host = some a →
      (verifyconfcert p4 p6 ptr cert ⟨host, 255, none, none⟩ = true ↔
        ipAcceptSpec ptr cert host 4)) ∧
    (∀ a, p4 host = none → p6 host = some a →
      (verifyconfcert p4 p6 ptr cert ⟨host, 255, none, none⟩ = true ↔
        ipAcceptSpec ptr cert host 16)) ∧
    (∀ a, p4 host = some a →
      verifyconfcert p4 p6 ptr cert ⟨host, 255, ccn, curi⟩ = true →
      ipAcceptSpec ptr cert host 4) ∧
    (∀ a, p4 host = none → p6 host = some a →
      verifyconfcert p4 p6 ptr cert ⟨host, 255, ccn, curi⟩ = true →
      ipAcceptSpec ptr cert host 16) := by
  refine ⟨?_, ?_, ?_, ?_⟩
  · intro a hp
    have hmain : verifyconfcert p4 p6 ptr cert ⟨host, 255, none, none⟩ =
        (if subjectaltnameaddr ptr cert AF_INET ≠ 0
         then decide (0 < subjectaltnameaddr ptr cert AF_INET)
         else decide (cnregexp cert host ≠ 0)) := by
      unfold verifyconfcert
      simp [hp, AF_INET]
    rw [hmain]
    exact ipadd_accept_iff ptr cert host AF_INET 4 (Or.inl ⟨rfl, rfl⟩)
  · intro a hp4 hp6
    have hmain : verifyconfcert p4 p6 ptr cert ⟨host, 255, none, none⟩ =
        (if subjectaltnameaddr ptr cert AF_INET6 ≠ 0
         then decide (0 < subjectaltnameaddr ptr cert AF_INET6)
         else decide (cnregexp cert host ≠ 0)) := by
      unfold verifyconfcert
      simp [hp4, hp6, AF_INET6]
    rw [hmain]
    exact ipadd_accept_iff ptr cert host AF_INET6 16 (Or.inr ⟨rfl, rfl⟩)
  · intro a hp
    have hmain : verifyconfcert p4 p6 ptr cert ⟨host, 255, ccn, curi⟩ =
        ((if subjectaltnameaddr ptr cert AF_INET ≠ 0
          then decide (0 < subjectaltnameaddr ptr cert AF_INET)
          else decide (cnregexp cert host ≠ 0)) &&
         (match ccn with
          | some regex => decide (1 ≤ cnregexpRegex cert regex)
          | none => true) &&
         (match curi with
          | some regex => decide (1 ≤ subjectaltnameuri cert regex)
          | none => true)) := by
      unfold verifyconfcert
      simp [hp, AF_INET]
    intro hacc
    rw [hmain] at hacc
    rw [Bool.and_eq_true, Bool.and_eq_true] at hacc
    exact (ipadd_accept_iff ptr cert host AF_INET 4 (Or.inl ⟨rfl, rfl⟩)).mp
      hacc.1.1
  · intro a hp4 hp6
    have hmain : verifyconfcert p4 p6 ptr cert ⟨host, 255, ccn, curi⟩ =
        ((if subjectaltnameaddr ptr cert AF_INET6 ≠ 0
          then decide (0 < subjectaltnameaddr ptr cert AF_INET6)
          else decide (cnregexp cert host ≠ 0)) &&
         (match ccn with
          | some regex => decide (1 ≤ cnregexpRegex cert regex)
          | none => true) &&
         (match curi with
          | some regex => decide (1 ≤ subjectaltnameuri cert regex)
          | none => true)) := by
      unfold verifyconfcert
      simp [hp4, hp6, AF_INET6]
    intro hacc
    rw [hmain] at hacc
    rw [Bool.and_eq_true, Bool.and_eq_true] at hacc
    exact (ipadd_accept_iff ptr cert host AF_INET6 16 (Or.inr ⟨rfl, rfl⟩)).mp
      hacc.1.1

/-- Witness for C4: the IPv4 clause applied to a certificate whose
iPAddress entry equals the first 4 pointer bytes, and the IPv6 clause to a
16-byte entry equal to the first 16 pointer bytes. -/
theorem verifyconfcert_ip_literal_witness :
    (verifyconfcert (fun _ => some [1, 2, 3, 4]) (fun _ => none)
      [80, 81, 82, 83, 84, 85, 86, 87]
      ⟨some [GeneralName.ipadd [80, 81, 82, 83]], []⟩
      ⟨"1.2.3.4", 255, none, none⟩ = true ↔
      ipAcceptSpec [80, 81, 82, 83, 84, 85, 86, 87]
        ⟨some [GeneralName.ipadd [80, 81, 82, 83]], []⟩ "1.2.3.4" 4) ∧
    (verifyconfcert (fun _ => none) (fun _ => some (List.replicate 16 0))
      (List.range 20)
      ⟨some [GeneralName.ipadd (List.range 16)], []⟩
      ⟨"::1", 255, none, none⟩ = true ↔
      ipAcceptSpec (List.range 20)
        ⟨some [GeneralName.ipadd (List.range 16)], []⟩ "::1" 16) :=
  ⟨(verifyconfcert_ip_literal (fun _ => some [1, 2, 3, 4]) (fun _ => none)
      [80, 81, 82, 83, 84, 85, 86, 87]
      ⟨some [GeneralName.ipadd [80, 81, 82, 83]], []⟩ "1.2.3.4"
      none none).1 [1, 2, 3, 4] rfl,
   (verifyconfcert_ip_literal (fun _ => none)
      (fun _ => some (List.replicate 16 0)) (List.range 20)
      ⟨some [GeneralName.ipadd (List.range 16)], []⟩ "::1"
      none none).2.1 (List.replicate 16 0) rfl rfl⟩
